import Mathlib

/-!
Verification of the cell-based NAS search space (xnas/search_space/cell_based.py).

Tensors are opaque numeric transforms in this design.  Scalar values flowing
through mixed operations are modelled by rationals; primitive operations are
opaque functions, stateful ones (batch statistics) explicit state-passing
functions.  The genotype codec manipulates one-hot architecture-weight
matrices, whose entries are modelled by integers.
-/

namespace XNAS

/-- Sum of edge counts of the first i intermediate nodes: S i = Σ_t<i (2+t). -/
def edge_offset : ℕ → ℕ
  | 0 => 0
  | Nat.succ i => edge_offset i + (2 + i)

/-- Loop body of darts_weight_unpack: fuel, loop counter i, start index, end index.
Python slice weight[s:e] is (drop s).take (e-s). -/
def unpack_go {α : Type} (weight : List α) (input_nodes : ℕ) :
    ℕ → ℕ → ℕ → ℕ → List (List α)
  | 0, _, _, _ => []
  | Nat.succ k, i, s, e =>
      ((weight.drop s).take (e - s)) ::
        unpack_go weight input_nodes k (i + 1) e (e + input_nodes + i + 1)

/-- darts_weight_unpack from the source: unpack a flat 2d weight matrix to the dag,
starting with start_index = 0 and end_index = input_nodes. -/
def darts_weight_unpack {α : Type} (weight : List α) (n_nodes : ℕ) (input_nodes : ℕ) :
    List (List α) :=
  unpack_go weight input_nodes n_nodes 0 0 input_nodes

/-- Per-cell edge count as computed in DartsCNN.__init__: sum(list(range(2, n_nodes + 2))). -/
def num_edges_calc (n_nodes : ℕ) : ℕ := (List.range' 2 n_nodes).sum

/-- The default DARTS operation vocabulary of DartsCNN.__init__. -/
def DARTS_DEFAULT_OPS : List String :=
  ["max_pool_3x3", "avg_pool_3x3", "skip_connect", "sep_conv_3x3",
   "sep_conv_5x5", "dil_conv_3x3", "dil_conv_5x5", "none"]

/-- The GDAS_OP vocabulary defined at the top of the source file. -/
def GDAS_OP : List String :=
  ["none", "skip_connect", "avg_pool_3x3", "max_pool_3x3",
   "dil_conv_3x3", "dil_conv_5x5", "sep_conv_3x3", "sep_conv_5x5"]

/-- Model of a DartsCell as constructed by DartsCell.__init__: the dag stores,
for node i and incoming edge j, the stride given to the _MixedOp
(2 exactly when the cell is a reduction cell and j < 2, else 1). -/
structure DartsCellModel where
  reduction : Bool
  n_nodes : ℕ
  C_pp : ℕ
  C_p : ℕ
  C : ℕ
  preproc0_factorized : Bool
  basic_op_list : List String
  dag : List (List ℕ)
deriving DecidableEq, Repr, Inhabited

/-- DartsCell.__init__ translated from the source. -/
def DartsCell_init (n_nodes C_pp C_p C : ℕ) (reduction_p reduction : Bool)
    (basic_op_list : List String) : DartsCellModel :=
  { reduction := reduction
    n_nodes := n_nodes
    C_pp := C_pp
    C_p := C_p
    C := C
    preproc0_factorized := reduction_p
    basic_op_list := basic_op_list
    dag := (List.range n_nodes).map (fun i =>
      (List.range (2 + i)).map (fun j =>
        if reduction = true ∧ j < 2 then 2 else 1)) }

/-- Model of the DartsCNN macro network state built by DartsCNN.__init__. -/
structure DartsCNNModel where
  C_in : ℕ
  C : ℕ
  n_classes : ℕ
  n_layers : ℕ
  n_nodes : ℕ
  basic_op_list : List String
  cells : List DartsCellModel
  num_edges : ℕ
  num_ops : ℕ
  all_edges : ℕ
deriving DecidableEq, Repr

/-- Cell-stacking loop of DartsCNN.__init__: fuel, layer index i, C_pp, C_p,
current width C_cur, previous-cell reduction flag.  A layer is a reduction
layer exactly when i is in [n_layers // 3, 2 * n_layers // 3]; there the
current width is doubled before the cell is built. -/
def build_cells (n_layers n_nodes : ℕ) (bol : List String) :
    ℕ → ℕ → ℕ → ℕ → ℕ → Bool → List DartsCellModel
  | 0, _, _, _, _, _ => []
  | Nat.succ k, i, C_pp, C_p, C_cur, reduction_p =>
      let red : Bool := decide (i = n_layers / 3 ∨ i = 2 * n_layers / 3)
      let C_cur2 := if red then 2 * C_cur else C_cur
      let cell := DartsCell_init n_nodes C_pp C_p C_cur2 reduction_p red bol
      cell :: build_cells n_layers n_nodes bol k (i + 1) C_p (C_cur2 * n_nodes) C_cur2 red

/-- DartsCNN.__init__ translated from the source (stem_multiplier = 3, C_in = 3;
an empty basic_op_list argument selects the default 8-operation vocabulary). -/
def DartsCNN_init (C n_classes n_layers n_nodes : ℕ) (basic_op_list : List String) :
    DartsCNNModel :=
  let stem_multiplier := 3
  let bol := if basic_op_list.length = 0 then DARTS_DEFAULT_OPS else basic_op_list
  let C_stem := stem_multiplier * C
  { C_in := 3
    C := C
    n_classes := n_classes
    n_layers := n_layers
    n_nodes := n_nodes
    basic_op_list := bol
    cells := build_cells n_layers n_nodes bol n_layers 0 C_stem C_stem C false
    num_edges := num_edges_calc n_nodes
    num_ops := bol.length
    all_edges := 2 * num_edges_calc n_nodes }

/-- Model of a GDAS network instance. -/
structure GDASModel where
  darts : DartsCNNModel
  tau : ℚ
deriving DecidableEq, Repr

/-- GDAS.__init__ translated from the source: it calls
super().__init__(C=16, n_classes=10, n_layers=8, n_nodes=4, basic_op_list=[])
with literal constants, then stores tau. -/
def GDAS_init (_C _n_classes _n_layers _n_nodes : ℕ) (_basic_op_list : List String)
    (tau : ℚ) : GDASModel :=
  { darts := DartsCNN_init 16 10 8 4 []
    tau := tau }

/-! Basic facts about edge_offset and num_edges_calc. -/

theorem edge_offset_le_succ (i : ℕ) : edge_offset i ≤ edge_offset (i + 1) := by
  simp [edge_offset]

theorem edge_offset_mono : ∀ {i j : ℕ}, i ≤ j → edge_offset i ≤ edge_offset j := by
  intro i j h
  induction h with
  | refl => exact le_refl _
  | step _ ih => exact le_trans ih (edge_offset_le_succ _)

theorem num_edges_calc_eq_edge_offset (n : ℕ) : num_edges_calc n = edge_offset n := by
  induction n with
  | zero => rfl
  | succ n ih =>
      simp only [num_edges_calc] at ih ⊢
      rw [List.range'_concat, List.sum_append, ih]
      simp [edge_offset, Nat.add_comm]

/-! Characterization of darts_weight_unpack. -/

theorem unpack_go_eq {α : Type} (w : List α) :
    ∀ (k i : ℕ), unpack_go w 2 k i (edge_offset i) (edge_offset (i + 1)) =
      (List.range k).map (fun t => (w.drop (edge_offset (i + t))).take (2 + (i + t))) := by
  intro k
  induction k with
  | zero => intro i; rfl
  | succ k ih =>
      intro i
      have he1 : edge_offset (i + 1) - edge_offset i = 2 + i := by
        simp [edge_offset]
      have he2 : edge_offset (i + 1) + 2 + i + 1 = edge_offset (i + 1 + 1) := by
        simp [edge_offset]; omega
      rw [unpack_go, he1, he2, ih (i + 1), List.range_succ_eq_map]
      simp only [List.map_cons, List.map_map, Nat.add_zero]
      congr 1
      apply List.map_congr_left
      intro t _
      simp only [Function.comp_apply]
      have hadd : i + 1 + t = i + (t + 1) := by omega
      rw [hadd]

theorem darts_weight_unpack_eq {α : Type} (w : List α) (N : ℕ) :
    darts_weight_unpack w N 2 =
      (List.range N).map (fun t => (w.drop (edge_offset t)).take (2 + t)) := by
  have h := unpack_go_eq w N 0
  simpa [darts_weight_unpack, edge_offset] using h

theorem join_slices {α : Type} (w : List α) :
    ∀ N, edge_offset N ≤ w.length →
      ((List.range N).map (fun t => (w.drop (edge_offset t)).take (2 + t))).flatten =
        w.take (edge_offset N) := by
  intro N
  induction N with
  | zero => intro _; rfl
  | succ N ih =>
      intro h
      rw [List.range_succ, List.map_append, List.flatten_append,
        ih (le_trans (edge_offset_le_succ N) h)]
      simp only [List.map_cons, List.map_nil, List.flatten_cons, List.flatten_nil,
        List.append_nil]
      rw [edge_offset, ← List.take_add]

/-- C4 counterexample: on a flat sequence shorter than Σ(2+i) the groups are
truncated; with N = 1 and the empty sequence, group 0 has length 0, not 2. -/
theorem c4_counterexample :
    ((darts_weight_unpack ([] : List ℚ) 1 2).getD 0 []).length ≠ 2 + 0 := by
  decide

/-- C4 (amended): for every N ≥ 1 and every flat sequence with at least
Σ_i<N (2+i) entries, darts_weight_unpack produces N groups, group i being the
2+i consecutive entries starting at offset Σ_t<i (2+t); the concatenation of
the groups is exactly the first Σ(2+i) entries, and entries beyond that are
never consumed. -/
theorem c4_unpack_groups (N : ℕ) (w : List ℚ) (hN : 1 ≤ N)
    (hw : edge_offset N ≤ w.length) :
    (darts_weight_unpack w N 2).length = N ∧
    (∀ i, i < N → (darts_weight_unpack w N 2).getD i [] =
        (w.drop (edge_offset i)).take (2 + i)) ∧
    (∀ i, i < N → ((darts_weight_unpack w N 2).getD i []).length = 2 + i) ∧
    (darts_weight_unpack w N 2).flatten = w.take (edge_offset N) ∧
    darts_weight_unpack (w.take (edge_offset N)) N 2 = darts_weight_unpack w N 2 := by
  have hgd : ∀ i, i < N → (darts_weight_unpack w N 2).getD i [] =
      (w.drop (edge_offset i)).take (2 + i) := by
    intro i hi
    rw [darts_weight_unpack_eq, List.getD_eq_getElem?_getD, List.getElem?_map,
      List.getElem?_range hi]
    rfl
  refine ⟨?_, hgd, ?_, ?_, ?_⟩
  · rw [darts_weight_unpack_eq]; simp
  · intro i hi
    rw [hgd i hi]
    have hle : edge_offset i + (2 + i) ≤ w.length :=
      le_trans (le_of_eq (by simp [edge_offset, Nat.add_comm]))
        (le_trans (edge_offset_mono hi) hw)
    simp only [List.length_take, List.length_drop]
    omega
  · rw [darts_weight_unpack_eq]; exact join_slices w N hw
  · rw [darts_weight_unpack_eq, darts_weight_unpack_eq]
    apply List.map_congr_left
    intro t ht
    have ht' : t < N := List.mem_range.mp ht
    have hle : edge_offset t + (2 + t) ≤ edge_offset N := by
      have : edge_offset (t + 1) ≤ edge_offset N := edge_offset_mono ht'
      simpa [edge_offset, Nat.add_comm] using this
    rw [List.take_drop, List.take_take, List.take_drop,
      Nat.min_eq_left (le_trans (le_of_eq rfl) hle)]

/-- C4 witness: the N = 4 instance of the spec scenario, on the flat sequence
0,…,13; groups have lengths 2,3,4,5 and are the index ranges
[0:2], [2:5], [5:9], [9:14]. -/
theorem c4_unpack_groups_witness :
    1 ≤ 4 ∧ edge_offset 4 ≤ (((List.range 14).map (fun t => (t : ℚ)))).length ∧
    (darts_weight_unpack ((List.range 14).map (fun t => (t : ℚ))) 4 2).getD 0 [] =
      [0, 1] ∧
    (darts_weight_unpack ((List.range 14).map (fun t => (t : ℚ))) 4 2).getD 1 [] =
      [2, 3, 4] ∧
    (darts_weight_unpack ((List.range 14).map (fun t => (t : ℚ))) 4 2).getD 2 [] =
      [5, 6, 7, 8] ∧
    (darts_weight_unpack ((List.range 14).map (fun t => (t : ℚ))) 4 2).getD 3 [] =
      [9, 10, 11, 12, 13] := by
  have h := c4_unpack_groups 4 ((List.range 14).map (fun t => (t : ℚ)))
    (by decide) (by decide)
  refine ⟨by decide, by decide, ?_, ?_, ?_, ?_⟩
  · rw [h.2.1 0 (by decide)]; decide
  · rw [h.2.1 1 (by decide)]; decide
  · rw [h.2.1 2 (by decide)]; decide
  · rw [h.2.1 3 (by decide)]; decide

/-! Cell edge counts (C10). -/

theorem sum_map_range_add_two :
    ∀ N : ℕ, ((List.range N).map (fun i => 2 + i)).sum = edge_offset N := by
  intro N
  induction N with
  | zero => rfl
  | succ N ih =>
      rw [List.range_succ, List.map_append, List.sum_append, ih]
      simp [edge_offset]

/-- C10: a DARTS cell is constructed with node i having exactly 2+i incoming
edges; the total edge count is Σ_i<N (2+i); and the macro network's num_edges
field equals this sum (for N = 4 it is 14). -/
theorem c10_cell_edge_counts (N C_pp C_p C : ℕ) (rp r : Bool) (bol : List String)
    (hN : 1 ≤ N) :
    (∀ i, i < N → ((DartsCell_init N C_pp C_p C rp r bol).dag.getD i []).length = 2 + i) ∧
    ((DartsCell_init N C_pp C_p C rp r bol).dag.map List.length).sum = edge_offset N ∧
    (∀ Cc ncls nlay : ℕ, (DartsCNN_init Cc ncls nlay N bol).num_edges = edge_offset N) ∧
    edge_offset 4 = 14 := by
  refine ⟨?_, ?_, ?_, by decide⟩
  · intro i hi
    simp only [DartsCell_init]
    rw [List.getD_eq_getElem?_getD, List.getElem?_map, List.getElem?_range hi]
    simp
  · simp only [DartsCell_init, List.map_map]
    have : (List.length ∘ fun i => (List.range (2 + i)).map
        (fun j => if r = true ∧ j < 2 then 2 else 1)) = fun i : ℕ => 2 + i := by
      funext i
      simp
    rw [this, sum_map_range_add_two]
  · intro Cc ncls nlay
    show num_edges_calc N = edge_offset N
    exact num_edges_calc_eq_edge_offset N

/-- C10 witness at N = 4: node 3 of a concretely built cell has 5 incoming edges,
the cell's total edge count is edge_offset 4 = 14, and the macro network's
num_edges field is 14. -/
theorem c10_cell_edge_counts_witness :
    ((DartsCell_init 4 48 48 16 false false DARTS_DEFAULT_OPS).dag.getD 3 []).length =
      2 + 3 ∧
    ((DartsCell_init 4 48 48 16 false false DARTS_DEFAULT_OPS).dag.map List.length).sum =
      edge_offset 4 ∧
    (DartsCNN_init 16 10 8 4 DARTS_DEFAULT_OPS).num_edges = edge_offset 4 ∧
    edge_offset 4 = 14 :=
  ⟨(c10_cell_edge_counts 4 48 48 16 false false DARTS_DEFAULT_OPS (by decide)).1 3
      (by decide),
   (c10_cell_edge_counts 4 48 48 16 false false DARTS_DEFAULT_OPS (by decide)).2.1,
   (c10_cell_edge_counts 4 48 48 16 false false DARTS_DEFAULT_OPS (by decide)).2.2.1 16 10 8,
   by decide⟩

/-! GDAS constructor (C2). -/

/-- C2: the GDAS constructor ignores every architecture argument; whatever
C, n_classes, n_layers, n_nodes and basic_op_list are passed, the underlying
DartsCNN state is the one built from C=16, n_classes=10, n_layers=8, n_nodes=4
with the default 8-operation vocabulary, and only tau is taken from the
arguments. -/
theorem c2_gdas_ignores_args (C n_classes n_layers n_nodes : ℕ) (bol : List String)
    (tau : ℚ) :
    (GDAS_init C n_classes n_layers n_nodes bol tau).darts = DartsCNN_init 16 10 8 4 [] ∧
    (GDAS_init C n_classes n_layers n_nodes bol tau).darts.basic_op_list =
      DARTS_DEFAULT_OPS ∧
    (GDAS_init C n_classes n_layers n_nodes bol tau).darts.basic_op_list.length = 8 ∧
    (GDAS_init C n_classes n_layers n_nodes bol tau).tau = tau :=
  ⟨rfl, rfl, rfl, rfl⟩

/-! Reduction-cell positions and channel doubling (C6). -/

/-- Number of reduction layers among layer indices a, a+1, …, a+t-1. -/
def cntwin (L : ℕ) : ℕ → ℕ → ℕ
  | _, 0 => 0
  | a, Nat.succ t =>
      (if a = L / 3 ∨ a = 2 * L / 3 then 1 else 0) + cntwin L (a + 1) t

theorem cntwin_succ_right (L : ℕ) :
    ∀ (t a : ℕ), cntwin L a (t + 1) =
      cntwin L a t + (if a + t = L / 3 ∨ a + t = 2 * L / 3 then 1 else 0) := by
  intro t
  induction t with
  | zero => intro a; simp [cntwin]
  | succ t ih =>
      intro a
      have h1 : cntwin L a (t + 1 + 1) =
          (if a = L / 3 ∨ a = 2 * L / 3 then 1 else 0) + cntwin L (a + 1) (t + 1) := rfl
      have h2 : cntwin L a (t + 1) =
          (if a = L / 3 ∨ a = 2 * L / 3 then 1 else 0) + cntwin L (a + 1) t := rfl
      rw [h1, h2, ih (a + 1)]
      have h3 : a + 1 + t = a + (t + 1) := by omega
      rw [h3]
      ring

theorem build_cells_succ (L N : ℕ) (bol : List String) (k i C_pp C_p c : ℕ) (rp : Bool) :
    build_cells L N bol (k + 1) i C_pp C_p c rp =
      DartsCell_init N C_pp C_p
          (if decide (i = L / 3 ∨ i = 2 * L / 3) then 2 * c else c) rp
          (decide (i = L / 3 ∨ i = 2 * L / 3)) bol ::
        build_cells L N bol k (i + 1) C_p
          ((if decide (i = L / 3 ∨ i = 2 * L / 3) then 2 * c else c) * N)
          (if decide (i = L / 3 ∨ i = 2 * L / 3) then 2 * c else c)
          (decide (i = L / 3 ∨ i = 2 * L / 3)) := rfl

theorem build_cells_getD (L N : ℕ) (bol : List String) :
    ∀ (k t i C_pp C_p c : ℕ) (rp : Bool), t < k →
      ((build_cells L N bol k i C_pp C_p c rp).getD t default).reduction =
        decide (i + t = L / 3 ∨ i + t = 2 * L / 3) ∧
      ((build_cells L N bol k i C_pp C_p c rp).getD t default).C =
        c * 2 ^ cntwin L i (t + 1) := by
  intro k
  induction k with
  | zero => intro t i C_pp C_p c rp ht; omega
  | succ k ih =>
      intro t i C_pp C_p c rp ht
      cases t with
      | zero =>
          constructor
          · simp [build_cells_succ, DartsCell_init]
          · by_cases hP : i = L / 3 ∨ i = 2 * L / 3
            · simp [build_cells_succ, DartsCell_init, cntwin, hP]
              ring
            · simp [build_cells_succ, DartsCell_init, cntwin, hP]
      | succ s =>
          have hs : s < k := by omega
          have hmain := ih s (i + 1) C_p
            ((if decide (i = L / 3 ∨ i = 2 * L / 3) then 2 * c else c) * N)
            (if decide (i = L / 3 ∨ i = 2 * L / 3) then 2 * c else c)
            (decide (i = L / 3 ∨ i = 2 * L / 3)) hs
          rw [build_cells_succ]
          simp only [List.getD_cons_succ]
          rw [hmain.1, hmain.2]
          constructor
          · have h3 : i + 1 + s = i + (s + 1) := by omega
            rw [h3]
          · have hc : cntwin L i (s + 1 + 1) =
                (if i = L / 3 ∨ i = 2 * L / 3 then 1 else 0) + cntwin L (i + 1) (s + 1) :=
              rfl
            rw [hc]
            by_cases hP : i = L / 3 ∨ i = 2 * L / 3
            · simp only [hP, iff_true, decide_True, if_true, decide_eq_true_eq]
              rw [pow_add]
              ring
            · simp [hP]

/-- Width of cell i as built (the channel width C passed to the cell). -/
def cellWidth (M : DartsCNNModel) (i : ℕ) : ℕ := (M.cells.getD i default).C

/-- Width preceding cell i: the network's base width C for i = 0, else the
width of cell i-1. -/
def prevWidth (M : DartsCNNModel) (i : ℕ) : ℕ :=
  if i = 0 then M.C else cellWidth M (i - 1)

/-- C6: for every layer count L, the macro network makes cell i a reduction
cell exactly when i = L//3 or i = 2L//3, and the per-cell current width
doubles exactly at those indices and nowhere else. -/
theorem c6_reduction_positions (L C ncls N : ℕ) (bol : List String) (hC : 0 < C)
    (i : ℕ) (hi : i < L) :
    (((DartsCNN_init C ncls L N bol).cells.getD i default).reduction = true ↔
      (i = L / 3 ∨ i = 2 * L / 3)) ∧
    (cellWidth (DartsCNN_init C ncls L N bol) i =
        2 * prevWidth (DartsCNN_init C ncls L N bol) i ↔
      (i = L / 3 ∨ i = 2 * L / 3)) ∧
    (cellWidth (DartsCNN_init C ncls L N bol) i =
        prevWidth (DartsCNN_init C ncls L N bol) i ↔
      ¬ (i = L / 3 ∨ i = 2 * L / 3)) := by
  have hcells : (DartsCNN_init C ncls L N bol).cells =
      build_cells L N (if bol.length = 0 then DARTS_DEFAULT_OPS else bol) L 0
        (3 * C) (3 * C) C false := rfl
  have hCfield : (DartsCNN_init C ncls L N bol).C = C := rfl
  have hmain := build_cells_getD L N
    (if bol.length = 0 then DARTS_DEFAULT_OPS else bol) L i 0 (3 * C) (3 * C) C false hi
  have hred : ((DartsCNN_init C ncls L N bol).cells.getD i default).reduction =
      decide (i = L / 3 ∨ i = 2 * L / 3) := by
    rw [hcells]
    simpa using hmain.1
  have hw : cellWidth (DartsCNN_init C ncls L N bol) i = C * 2 ^ cntwin L 0 (i + 1) := by
    rw [cellWidth, hcells]
    simpa using hmain.2
  have hpw : prevWidth (DartsCNN_init C ncls L N bol) i = C * 2 ^ cntwin L 0 i := by
    rw [prevWidth]
    by_cases h0 : i = 0
    · simp [h0, cntwin, hCfield]
    · have hi1 : i - 1 < L := by omega
      have hmain1 := build_cells_getD L N
        (if bol.length = 0 then DARTS_DEFAULT_OPS else bol) L (i - 1) 0 (3 * C) (3 * C) C
        false hi1
      have : i - 1 + 1 = i := by omega
      rw [if_neg h0, cellWidth, hcells]
      rw [this] at hmain1
      simpa using hmain1.2
  have hsplit : cntwin L 0 (i + 1) =
      cntwin L 0 i + (if i = L / 3 ∨ i = 2 * L / 3 then 1 else 0) := by
    have h := cntwin_succ_right L i 0
    simpa using h
  have hpos : 0 < C * 2 ^ cntwin L 0 i :=
    Nat.mul_pos hC (Nat.pos_pow_of_pos _ (by omega))
  have hconj1 : ((DartsCNN_init C ncls L N bol).cells.getD i default).reduction = true ↔
      (i = L / 3 ∨ i = 2 * L / 3) := by
    rw [hred, decide_eq_true_eq]
  by_cases hP : i = L / 3 ∨ i = 2 * L / 3
  · have h2w : C * 2 ^ (cntwin L 0 i + 1) = 2 * (C * 2 ^ cntwin L 0 i) := by
      rw [pow_add]
      ring
    refine ⟨hconj1, ?_, ?_⟩
    · rw [hw, hpw, hsplit, if_pos hP, h2w]
      exact iff_of_true rfl hP
    · rw [hw, hpw, hsplit, if_pos hP, h2w]
      exact iff_of_false (by omega) (not_not_intro hP)
  · refine ⟨hconj1, ?_, ?_⟩
    · rw [hw, hpw, hsplit, if_neg hP]
      simp only [Nat.add_zero]
      exact iff_of_false (by omega) hP
    · rw [hw, hpw, hsplit, if_neg hP]
      simp only [Nat.add_zero]
      exact iff_of_true trivial hP

/-- C6 witness at L = 8, C = 16: layer 2 is a reduction layer (8 // 3 = 2) where
the width doubles, layer 3 is not and keeps its width; moreover 8 // 3 = 2 and
2 * 8 // 3 = 5. -/
theorem c6_reduction_positions_witness :
    (((DartsCNN_init 16 10 8 4 []).cells.getD 2 default).reduction = true ↔
      (2 = 8 / 3 ∨ 2 = 2 * 8 / 3)) ∧
    (cellWidth (DartsCNN_init 16 10 8 4 []) 2 =
        2 * prevWidth (DartsCNN_init 16 10 8 4 []) 2 ↔ (2 = 8 / 3 ∨ 2 = 2 * 8 / 3)) ∧
    (cellWidth (DartsCNN_init 16 10 8 4 []) 3 =
        prevWidth (DartsCNN_init 16 10 8 4 []) 3 ↔ ¬ (3 = 8 / 3 ∨ 3 = 2 * 8 / 3)) ∧
    8 / 3 = 2 ∧ 2 * 8 / 3 = 5 :=
  ⟨(c6_reduction_positions 8 16 10 4 [] (by decide) 2 (by decide)).1,
   (c6_reduction_positions 8 16 10 4 [] (by decide) 2 (by decide)).2.1,
   (c6_reduction_positions 8 16 10 4 [] (by decide) 3 (by decide)).2.2,
   by decide, by decide⟩

/-! Mixed operation (edge).  A primitive operation is an opaque stateful
numeric transform: evaluating it maps the input and the primitive's internal
state (its running statistics) to an output and an updated state.  A primitive
that is not evaluated keeps its state. -/

/-- An opaque primitive operation with internal state of type σ. -/
structure PrimOp (σ : Type) where
  run : ℚ → σ → ℚ × σ

/-- _MixedOp.forward (relaxed-eval) from the source: a primitive is evaluated
only when its weight w is exactly 1 (contributing its unscaled output) or
satisfies 0 < w < 1 (contributing w times its output); all other primitives
are skipped: they contribute nothing and their state is untouched. -/
def mixed_forward {σ : Type} (x : ℚ) :
    List (PrimOp σ) → List ℚ → List σ → ℚ × List σ
  | op :: ops, w :: ws, s :: ss =>
      if w = 1 then
        let r := op.run x s
        let rest := mixed_forward x ops ws ss
        (r.1 + rest.1, r.2 :: rest.2)
      else if 0 < w ∧ w < 1 then
        let r := op.run x s
        let rest := mixed_forward x ops ws ss
        (w * r.1 + rest.1, r.2 :: rest.2)
      else
        let rest := mixed_forward x ops ws ss
        (rest.1, s :: rest.2)
  | _, _, _ => (0, [])

/-- _MixedOp.forwardDART (soft-eval) from the source: every primitive is
evaluated, its output scaled by its weight and summed. -/
def mixed_forwardDART {σ : Type} (x : ℚ) :
    List (PrimOp σ) → List ℚ → List σ → ℚ × List σ
  | op :: ops, w :: ws, s :: ss =>
      let r := op.run x s
      let rest := mixed_forwardDART x ops ws ss
      (w * r.1 + rest.1, r.2 :: rest.2)
  | _, _, _ => (0, [])

/-- _MixedOp.forwardGDAS (hard-select-eval) from the source: only the primitive
at the given index is evaluated and its output scaled by weights[index]; an
out-of-range index is a failure. -/
def mixed_forwardGDAS {σ : Type} (x : ℚ) (ops : List (PrimOp σ)) (weights : List ℚ)
    (states : List σ) (index : ℕ) : Option (ℚ × List σ) :=
  match ops[index]?, weights[index]?, states[index]? with
  | some op, some w, some s =>
      some ((op.run x s).1 * w, states.set index (op.run x s).2)
  | _, _, _ => none

theorem set_frame {α : Type} (l : List α) (j : ℕ) (a : α) :
    ∀ t, t ≠ j → (l.set j a)[t]? = l[t]? := by
  intro t ht
  exact List.getElem?_set_ne (fun h => ht h.symm)

/-- C7: hard-select-eval evaluates only the primitive at the selected index,
returns its output scaled by weights[index], and leaves the state of every
other primitive unchanged. -/
theorem c7_forwardGDAS_hard_select {σ : Type} (x : ℚ) (ops : List (PrimOp σ))
    (weights : List ℚ) (states : List σ) (index : ℕ)
    (hw : weights.length = ops.length) (hs : states.length = ops.length)
    (hidx : index < ops.length) :
    ∃ op w s, ops[index]? = some op ∧ weights[index]? = some w ∧
      states[index]? = some s ∧
      mixed_forwardGDAS x ops weights states index =
        some ((op.run x s).1 * w, states.set index (op.run x s).2) ∧
      (∀ j, j ≠ index → (states.set index (op.run x s).2)[j]? = states[j]?) ∧
      (states.set index (op.run x s).2)[index]? = some (op.run x s).2 := by
  have hi1 : index < weights.length := by omega
  have hi2 : index < states.length := by omega
  refine ⟨ops[index], weights[index], states[index],
    List.getElem?_eq_getElem hidx, List.getElem?_eq_getElem hi1,
    List.getElem?_eq_getElem hi2, ?_, set_frame states index _, ?_⟩
  · rw [mixed_forwardGDAS, List.getElem?_eq_getElem hidx,
      List.getElem?_eq_getElem hi1, List.getElem?_eq_getElem hi2]
  · rw [List.getElem?_set_self (by simpa using hi2)]

/-- Concrete probe primitives for witnesses: each one counts its calls in its
state. -/
def probeOps : List (PrimOp ℕ) :=
  [⟨fun x s => (x + 1, s + 1)⟩, ⟨fun x s => (2 * x, s + 1)⟩,
   ⟨fun x s => (x * x, s + 1)⟩]

/-- C7 witness: selecting index 1 out of three probe primitives evaluates only
that one (call counters of the others stay 0) and scales its output by
weights[1]. -/
theorem c7_forwardGDAS_hard_select_witness :
    (∃ op w s, probeOps[1]? = some op ∧ ([(1:ℚ)/2, 1/3, 1/4])[1]? = some w ∧
      ([0, 0, 0] : List ℕ)[1]? = some s ∧
      mixed_forwardGDAS 5 probeOps [(1:ℚ)/2, 1/3, 1/4] [0, 0, 0] 1 =
        some ((op.run 5 s).1 * w, ([0, 0, 0] : List ℕ).set 1 (op.run 5 s).2) ∧
      (∀ j, j ≠ 1 → (([0, 0, 0] : List ℕ).set 1 (op.run 5 s).2)[j]? =
        ([0, 0, 0] : List ℕ)[j]?) ∧
      (([0, 0, 0] : List ℕ).set 1 (op.run 5 s).2)[1]? = some (op.run 5 s).2) ∧
    mixed_forwardGDAS 5 probeOps [(1:ℚ)/2, 1/3, 1/4] [0, 0, 0] 1 =
      some (10 / 3, [0, 1, 0]) :=
  ⟨c7_forwardGDAS_hard_select 5 probeOps [(1:ℚ)/2, 1/3, 1/4] [0, 0, 0] 1
      (by decide) (by decide) (by decide),
   by norm_num [mixed_forwardGDAS, probeOps]⟩

/-- C8: when every weight lies strictly between 0 and 1, relaxed-eval and
soft-eval return exactly the same output value. -/
theorem c8_forward_eq_forwardDART {σ : Type} (x : ℚ) :
    ∀ (ops : List (PrimOp σ)) (ws : List ℚ) (ss : List σ),
      ws.length = ops.length → ss.length = ops.length →
      (∀ w ∈ ws, 0 < w ∧ w < 1) →
      (mixed_forward x ops ws ss).1 = (mixed_forwardDART x ops ws ss).1 := by
  intro ops
  induction ops with
  | nil =>
      intro ws ss h1 h2 h3
      rw [List.length_nil, List.length_eq_zero] at h1 h2
      subst h1; subst h2
      rfl
  | cons op ops ih =>
      intro ws ss h1 h2 h3
      cases ws with
      | nil => simp at h1
      | cons w ws =>
          cases ss with
          | nil => simp at h2
          | cons s ss =>
              have hw : 0 < w ∧ w < 1 := h3 w (by simp)
              have hne : ¬ w = 1 := by
                intro h
                rw [h] at hw
                exact absurd hw.2 (by norm_num)
              rw [mixed_forward, mixed_forwardDART, if_neg hne, if_pos hw]
              simp only
              rw [ih ws ss (by simpa using h1) (by simpa using h2)
                (fun v hv => h3 v (by simp [hv]))]

/-- C8 witness: with weights 1/2, 1/3, 1/4 (all strictly inside (0,1)) on the
three probe primitives at input 5, both evaluation modes return 151/12. -/
theorem c8_forward_eq_forwardDART_witness :
    (mixed_forward 5 probeOps [(1:ℚ)/2, 1/3, 1/4] [0, 0, 0]).1 =
      (mixed_forwardDART 5 probeOps [(1:ℚ)/2, 1/3, 1/4] [0, 0, 0]).1 ∧
    (mixed_forwardDART 5 probeOps [(1:ℚ)/2, 1/3, 1/4] [0, 0, 0]).1 = 151 / 12 :=
  ⟨c8_forward_eq_forwardDART 5 probeOps [(1:ℚ)/2, 1/3, 1/4] [0, 0, 0]
      (by decide) (by decide)
      (by
        intro w hw
        simp only [List.mem_cons, List.not_mem_nil, or_false] at hw
        rcases hw with h | h | h <;> subst h <;> constructor <;> norm_num),
   by norm_num [mixed_forwardDART, probeOps]⟩

theorem mixed_forward_all_zero {σ : Type} (x : ℚ) :
    ∀ (ops : List (PrimOp σ)) (ss : List σ), ss.length = ops.length →
      mixed_forward x ops (List.replicate ops.length 0) ss = (0, ss) := by
  intro ops
  induction ops with
  | nil =>
      intro ss h
      rw [List.length_nil, List.length_eq_zero] at h
      subst h
      rfl
  | cons op ops ih =>
      intro ss h
      cases ss with
      | nil => simp at h
      | cons s ss =>
          rw [List.length_cons, List.replicate_succ, mixed_forward,
            if_neg (by norm_num), if_neg (by norm_num)]
          simp only
          rw [ih ss (by simpa using h)]

/-- C9: relaxed-eval on a one-hot weight vector (single 1 at position j, all
other entries 0) returns exactly the output of the primitive at j, evaluates
only that primitive, and leaves every other primitive's state unchanged. -/
theorem c9_forward_onehot {σ : Type} (x : ℚ) :
    ∀ (ops : List (PrimOp σ)) (ss : List σ) (j : ℕ),
      ss.length = ops.length → j < ops.length →
      ∃ op s, ops[j]? = some op ∧ ss[j]? = some s ∧
        mixed_forward x ops ((List.replicate ops.length (0:ℚ)).set j 1) ss =
          ((op.run x s).1, ss.set j (op.run x s).2) ∧
        (∀ t, t ≠ j → (ss.set j (op.run x s).2)[t]? = ss[t]?) := by
  intro ops
  induction ops with
  | nil => intro ss j h hj; simp at hj
  | cons op ops ih =>
      intro ss j h hj
      cases ss with
      | nil => simp at h
      | cons s ss =>
          cases j with
          | zero =>
              refine ⟨op, s, by simp, by simp, ?_, set_frame (s :: ss) 0 _⟩
              rw [List.length_cons, List.replicate_succ, List.set_cons_zero,
                mixed_forward, if_pos rfl]
              simp only
              rw [mixed_forward_all_zero x ops ss (by simpa using h)]
              simp
          | succ t =>
              have ht : t < ops.length := by simpa using hj
              obtain ⟨op2, s2, hop2, hs2, hres, _⟩ :=
                ih ss t (by simpa using h) ht
              refine ⟨op2, s2, ?_, ?_, ?_, set_frame (s :: ss) (t + 1) _⟩
              · simpa using hop2
              · simpa using hs2
              · rw [List.length_cons, List.replicate_succ, List.set_cons_succ,
                  mixed_forward, if_neg (by norm_num), if_neg (by norm_num)]
                simp only
                rw [hres]
                simp

/-- C9 witness: the one-hot vector selecting index 2 of the three probe
primitives at input 5 returns 25 and bumps only that primitive's call counter. -/
theorem c9_forward_onehot_witness :
    (∃ op s, probeOps[2]? = some op ∧ ([0, 0, 0] : List ℕ)[2]? = some s ∧
      mixed_forward 5 probeOps ((List.replicate probeOps.length (0:ℚ)).set 2 1)
          [0, 0, 0] =
        ((op.run 5 s).1, ([0, 0, 0] : List ℕ).set 2 (op.run 5 s).2) ∧
      (∀ t, t ≠ 2 → (([0, 0, 0] : List ℕ).set 2 (op.run 5 s).2)[t]? =
        ([0, 0, 0] : List ℕ)[t]?)) ∧
    mixed_forward 5 probeOps [0, 0, 1] [0, 0, 0] = (25, [0, 0, 1]) :=
  ⟨c9_forward_onehot 5 probeOps [0, 0, 0] 2 (by decide) (by decide),
   by norm_num [mixed_forward, probeOps]⟩

/-! Top-level forward weight slicing (C5). -/

/-- Cell loop of DartsCNN.forward translated from the source: for each cell the
weights are recomputed as sample[num_edges:] when the cell is a reduction cell
and sample[0:num_edges] otherwise, and the state pair is updated by
s0, s1 = s1, cell(s0, s1, weights).  Cell evaluation itself is opaque, keyed by
the cell index and its reduction flag. -/
def dartsCNN_forward_cells {T : Type} (cellEval : ℕ → Bool → T → T → List ℚ → T)
    (num_edges : ℕ) : ℕ → List Bool → List ℚ → T → T → T
  | _, [], _, _, s1 => s1
  | i, red :: rest, sample, s0, s1 =>
      let weights := if red then sample.drop num_edges else sample.take num_edges
      dartsCNN_forward_cells cellEval num_edges (i + 1) rest sample s1
        (cellEval i red s0 s1 weights)

/-- Modelled from the spec wording: the normal-cell slice (exactly the first
num_edges entries) and the reduction-cell slice (exactly the remaining entries)
are computed once and shared by every cell of the same kind. -/
def dartsCNN_forward_cells_shared {T : Type} (cellEval : ℕ → Bool → T → T → List ℚ → T)
    (wNormal wReduce : List ℚ) : ℕ → List Bool → T → T → T
  | _, [], _, s1 => s1
  | i, red :: rest, s0, s1 =>
      dartsCNN_forward_cells_shared cellEval wNormal wReduce (i + 1) rest s1
        (cellEval i red s0 s1 (if red then wReduce else wNormal))

theorem dartsCNN_forward_cells_eq_shared {T : Type}
    (cellEval : ℕ → Bool → T → T → List ℚ → T) (num_edges : ℕ) (sample : List ℚ) :
    ∀ (reductions : List Bool) (i : ℕ) (s0 s1 : T),
      dartsCNN_forward_cells cellEval num_edges i reductions sample s0 s1 =
        dartsCNN_forward_cells_shared cellEval (sample.take num_edges)
          (sample.drop num_edges) i reductions s0 s1 := by
  intro reductions
  induction reductions with
  | nil => intro i s0 s1; rfl
  | cons red rest ih =>
      intro i s0 s1
      rw [dartsCNN_forward_cells, dartsCNN_forward_cells_shared, ih]

/-- C5: in the top-level forward, every non-reduction cell is evaluated with
exactly the first num_edges entries of the flat weight tensor and every
reduction cell with exactly the remaining entries; all cells of the same kind
share the same slice (the source per-iteration slicing equals the shared-slice
evaluation, on both stem copies as initial inputs). -/
theorem c5_forward_weight_slices {T : Type}
    (cellEval : ℕ → Bool → T → T → List ℚ → T) (num_edges : ℕ)
    (reductions : List Bool) (sample : List ℚ) (stem : T) :
    dartsCNN_forward_cells cellEval num_edges 0 reductions sample stem stem =
      dartsCNN_forward_cells_shared cellEval (sample.take num_edges)
        (sample.drop num_edges) 0 reductions stem stem :=
  dartsCNN_forward_cells_eq_shared cellEval num_edges sample reductions 0 stem stem

/-! Genotype codec: discretization (parse_from_numpy via DartsCNN.genotype) and
the inverse one-hot encoding (DartsCNN.genotype_to_onehot_sample). -/

/-- The Genotype namedtuple: (normal, normal_concat, reduce, reduce_concat). -/
structure GenotypeT where
  normal : List (List (String × ℕ))
  normal_concat : List ℕ
  reduce : List (List (String × ℕ))
  reduce_concat : List ℕ
deriving DecidableEq, Repr

/-- torch.topk(v, 1) on a 1-d list: the maximum value and the index of its
first occurrence (ties resolved to the smaller index, the documented torch
tie-break used by the source). -/
def topk1 : List ℤ → ℤ × ℕ
  | [] => (0, 0)
  | a :: rest =>
      match rest with
      | [] => (a, 0)
      | _ :: _ =>
          let mr := topk1 rest
          if a < mr.1 then (mr.1, mr.2 + 1) else (a, 0)

/-- Scan for the best-scoring candidate: the current best is replaced only on a
strictly greater score, so the first occurrence wins on ties. -/
def pick_best (l : List ℤ) : ℕ → List ℕ → ℕ
  | b, [] => b
  | b, i :: is =>
      if l.getD b 0 < l.getD i 0 then pick_best l i is else pick_best l b is

/-- First index outside the already-selected set attaining the maximum score. -/
def argmax_not_in (l : List ℤ) (used : List ℕ) : ℕ :=
  match (List.range l.length).filter (fun i => decide (i ∉ used)) with
  | [] => 0
  | c :: cs => pick_best l c cs

/-- torch.topk(v, k) index list: repeatedly select the first-occurring maximum
among the indices not yet selected (descending values, stable on ties). -/
def topk_indices (l : List ℤ) : ℕ → List ℕ → List ℕ
  | 0, _ => []
  | Nat.succ k, used =>
      let j := argmax_not_in l used
      j :: topk_indices l k (used ++ [j])

/-- Per-node step of parse_from_numpy: for each edge row the best op (score and
index) over the row without its last column (the 'none' op is ignored), then
the top-k edges by that score; output (op-name, edge-index) pairs. -/
def parse_node (basic_op_list : List String) (k : ℕ) (edges : List (List ℤ)) :
    List (String × ℕ) :=
  let edge_scores := edges.map (fun row => topk1 row.dropLast)
  let topk_edge_indices := topk_indices (edge_scores.map Prod.fst) k []
  topk_edge_indices.map (fun e =>
    (basic_op_list.getD (edge_scores.getD e (0, 0)).2 "", e))

/-- parse_from_numpy from the source; its assert that the vocabulary's last
entry is 'none' is carried as a hypothesis of the theorems below. -/
def parse_from_numpy (alpha : List (List (List ℤ))) (k : ℕ)
    (basic_op_list : List String) : List (List (String × ℕ)) :=
  alpha.map (parse_node basic_op_list k)

/-- DartsCNN.genotype from the source: split theta into the normal slice (first
num_edges rows) and reduce slice, unpack each into per-node groups, discretize
each with k = 2; concat indices are range(2, 2+n_nodes). -/
def DartsCNN_genotype (num_edges n_nodes : ℕ) (bol : List String)
    (theta : List (List ℤ)) : GenotypeT :=
  let theta_norm := darts_weight_unpack (theta.take num_edges) n_nodes 2
  let theta_reduce := darts_weight_unpack (theta.drop num_edges) n_nodes 2
  { normal := parse_from_numpy theta_norm 2 bol
    normal_concat := List.range' 2 n_nodes
    reduce := parse_from_numpy theta_reduce 2 bol
    reduce_concat := List.range' 2 n_nodes }

/-- One matrix assignment sample[r, c] = 1. -/
def set_entry (m : List (List ℤ)) (r c : ℕ) : List (List ℤ) :=
  m.set r ((m.getD r []).set c 1)

/-- The true_id computation of genotype_to_onehot_sample exactly as branched in
the source, with num_select = list(range(2, 2 + n_nodes)). -/
def true_id_calc (num_select : List ℕ) (num_edges i op_id j : ℕ) : ℕ :=
  if i = 0 then op_id + j * num_edges
  else if i = 1 then op_id + num_select.getD 0 0 + j * num_edges
  else op_id + (num_select.take i).sum + j * num_edges

/-- Inner loop of genotype_to_onehot_sample over the pairs of one node. -/
def apply_node (bol : List String) (num_select : List ℕ) (num_edges j i : ℕ)
    (node : List (String × ℕ)) (sample : List (List ℤ)) : List (List ℤ) :=
  node.foldl (fun sm op =>
    set_entry sm (true_id_calc num_select num_edges i op.2 j)
      (bol.indexOf op.1)) sample

/-- Middle loop of genotype_to_onehot_sample over the nodes of one gene
(Python enumerate, carrying the node index). -/
def apply_gene (bol : List String) (num_select : List ℕ) (num_edges j : ℕ) :
    ℕ → List (List (String × ℕ)) → List (List ℤ) → List (List ℤ)
  | _, [], sample => sample
  | i, node :: rest, sample =>
      apply_gene bol num_select num_edges j (i + 1) rest
        (apply_node bol num_select num_edges j i node sample)

/-- genotype_to_onehot_sample before the all-zero-row default step: a zero
matrix of shape (all_edges, len basic_op_list), written at the true_id rows of
the normal gene (j = 0) then the reduce gene (j = 1). -/
def encode_pre (n_nodes : ℕ) (bol : List String) (geno : GenotypeT) :
    List (List ℤ) :=
  let num_edges := num_edges_calc n_nodes
  let all_edges := 2 * num_edges
  let ns := List.range' 2 n_nodes
  let s0 := List.replicate all_edges (List.replicate bol.length (0:ℤ))
  let s1 := apply_gene bol ns num_edges 0 0 geno.normal s0
  apply_gene bol ns num_edges 1 0 geno.reduce s1

/-- genotype_to_onehot_sample from the source: after the one-hot writes, every
row whose sum is 0 gets a 1 at the fixed literal column 7. -/
def genotype_to_onehot_sample (n_nodes : ℕ) (bol : List String)
    (geno : GenotypeT) : List (List ℤ) :=
  (encode_pre n_nodes bol geno).map
    (fun row => if row.sum = 0 then row.set 7 1 else row)

/-- C1 counterexample genotype: one node per cell kind, selecting nothing, so
every edge row is left entirely zero. -/
def c1CexGeno : GenotypeT :=
  { normal := [[]], normal_concat := [], reduce := [[]], reduce_concat := [] }

/-- C1 counterexample: with the GDAS_OP vocabulary, whose 'none' primitive sits
at index 0, an all-zero edge row is defaulted with a 1 at literal column 7
(the 'sep_conv_5x5' position), not at the vocabulary's 'none' position, which
stays 0.  The default index is a fixed literal, not vocabulary-determined. -/
theorem c1_counterexample :
    GDAS_OP.indexOf "none" = 0 ∧
    ((genotype_to_onehot_sample 1 GDAS_OP c1CexGeno).getD 0 []).getD
      (GDAS_OP.indexOf "none") 0 = 0 ∧
    ((genotype_to_onehot_sample 1 GDAS_OP c1CexGeno).getD 0 []).getD 7 0 = 1 := by
  decide

/-- A 9-entry vocabulary whose last entry is 'none'. -/
def vocab9 : List String :=
  ["max_pool_3x3", "avg_pool_3x3", "skip_connect", "sep_conv_3x3",
   "sep_conv_5x5", "sep_conv_7x7", "dil_conv_3x3", "dil_conv_5x5", "none"]

/-- C3 counterexample genotype (k = 2 per node, edge indices valid, ops drawn
from the vocabulary excluding 'none' — the shape discretization produces):
node 1 selects edges 1 and 2, leaving edge 0 unselected. -/
def c3CexGeno : GenotypeT :=
  { normal := [[("max_pool_3x3", 0), ("avg_pool_3x3", 1)],
               [("max_pool_3x3", 1), ("avg_pool_3x3", 2)]]
    normal_concat := [2, 3]
    reduce := [[("max_pool_3x3", 0), ("avg_pool_3x3", 1)],
               [("max_pool_3x3", 1), ("avg_pool_3x3", 2)]]
    reduce_concat := [2, 3] }

/-- C3 counterexample: with a 9-entry vocabulary ending in 'none', the
unselected edge row's hardcoded default column 7 is a real operation, so
discretizing encode(g) ranks the unselected edge as high as the selected ones
and the pair ("avg_pool_3x3", 2) selected by g at node 1 is not recovered. -/
theorem c3_counterexample :
    vocab9.getD (vocab9.length - 1) "" = "none" ∧
    ("avg_pool_3x3", 2) ∈ c3CexGeno.normal.getD 1 [] ∧
    ¬ (("avg_pool_3x3", 2) ∈
        (DartsCNN_genotype (num_edges_calc 2) 2 vocab9
          (genotype_to_onehot_sample 2 vocab9 c3CexGeno)).normal.getD 1 []) := by
  decide

/-! Shape and row lemmas for the one-hot encoder. -/

theorem set_entry_length (m : List (List ℤ)) (r c : ℕ) :
    (set_entry m r c).length = m.length := by
  simp [set_entry]

theorem set_entry_getD (m : List (List ℤ)) (r c r2 : ℕ) :
    (set_entry m r c).getD r2 [] =
      if r = r2 ∧ r < m.length then (m.getD r []).set c 1 else m.getD r2 [] := by
  rw [set_entry, List.getD_eq_getElem?_getD, List.getElem?_set]
  by_cases h1 : r = r2
  · subst h1
    by_cases h2 : r < m.length
    · simp [h2]
    · have hnone : m[r]? = none := List.getElem?_eq_none (by omega)
      simp [h2, hnone]
  · simp [h1, List.getD_eq_getElem?_getD]

theorem apply_node_length (bol : List String) (ns : List ℕ) (E j i : ℕ) :
    ∀ (node : List (String × ℕ)) (m : List (List ℤ)),
      (apply_node bol ns E j i node m).length = m.length := by
  intro node
  induction node with
  | nil => intro m; rfl
  | cons op rest ih =>
      intro m
      show (apply_node bol ns E j i rest
        (set_entry m (true_id_calc ns E i op.2 j) (bol.indexOf op.1))).length = m.length
      rw [ih, set_entry_length]

theorem apply_gene_length (bol : List String) (ns : List ℕ) (E j : ℕ) :
    ∀ (gene : List (List (String × ℕ))) (i : ℕ) (m : List (List ℤ)),
      (apply_gene bol ns E j i gene m).length = m.length := by
  intro gene
  induction gene with
  | nil => intro i m; rfl
  | cons node rest ih =>
      intro i m
      rw [apply_gene, ih, apply_node_length]

theorem encode_pre_length (n : ℕ) (bol : List String) (geno : GenotypeT) :
    (encode_pre n bol geno).length = 2 * num_edges_calc n := by
  show (apply_gene bol (List.range' 2 n) (num_edges_calc n) 1 0 geno.reduce
    (apply_gene bol (List.range' 2 n) (num_edges_calc n) 0 0 geno.normal
      (List.replicate (2 * num_edges_calc n)
        (List.replicate bol.length (0:ℤ))))).length = 2 * num_edges_calc n
  rw [apply_gene_length, apply_gene_length, List.length_replicate]

theorem set_entry_row_length (m : List (List ℤ)) (r c r2 : ℕ) :
    ((set_entry m r c).getD r2 []).length = (m.getD r2 []).length := by
  rw [set_entry_getD]
  by_cases h : r = r2 ∧ r < m.length
  · rw [if_pos h, List.length_set, h.1]
  · rw [if_neg h]

theorem apply_node_row_length (bol : List String) (ns : List ℕ) (E j i : ℕ) :
    ∀ (node : List (String × ℕ)) (m : List (List ℤ)) (r2 : ℕ),
      ((apply_node bol ns E j i node m).getD r2 []).length = ((m.getD r2 []).length) := by
  intro node
  induction node with
  | nil => intro m r2; rfl
  | cons op rest ih =>
      intro m r2
      show ((apply_node bol ns E j i rest
        (set_entry m (true_id_calc ns E i op.2 j) (bol.indexOf op.1))).getD r2 []).length = _
      rw [ih, set_entry_row_length]

theorem apply_gene_row_length (bol : List String) (ns : List ℕ) (E j : ℕ) :
    ∀ (gene : List (List (String × ℕ))) (i : ℕ) (m : List (List ℤ)) (r2 : ℕ),
      ((apply_gene bol ns E j i gene m).getD r2 []).length = ((m.getD r2 []).length) := by
  intro gene
  induction gene with
  | nil => intro i m r2; rfl
  | cons node rest ih =>
      intro i m r2
      rw [apply_gene, ih, apply_node_row_length]

theorem encode_pre_row_length (n : ℕ) (bol : List String) (geno : GenotypeT)
    (r : ℕ) (hr : r < 2 * num_edges_calc n) :
    ((encode_pre n bol geno).getD r []).length = bol.length := by
  show ((apply_gene bol (List.range' 2 n) (num_edges_calc n) 1 0 geno.reduce
    (apply_gene bol (List.range' 2 n) (num_edges_calc n) 0 0 geno.normal
      (List.replicate (2 * num_edges_calc n)
        (List.replicate bol.length (0:ℤ))))).getD r []).length = bol.length
  rw [apply_gene_row_length, apply_gene_row_length, List.getD_eq_getElem?_getD,
    List.getElem?_replicate, if_pos hr]
  simp

/-- The default step row-by-row: the final row is the pre-encoding row, with a
1 written at column 7 exactly when the row sums to 0. -/
theorem genotype_onehot_getD (n_nodes : ℕ) (bol : List String) (geno : GenotypeT)
    (r : ℕ) :
    (genotype_to_onehot_sample n_nodes bol geno).getD r [] =
      if ((encode_pre n_nodes bol geno).getD r []).sum = 0
      then ((encode_pre n_nodes bol geno).getD r []).set 7 1
      else (encode_pre n_nodes bol geno).getD r [] := by
  rw [genotype_to_onehot_sample, List.getD_eq_getElem?_getD, List.getElem?_map]
  by_cases hr : r < (encode_pre n_nodes bol geno).length
  · rw [List.getElem?_eq_getElem hr]
    simp [List.getD_eq_getElem?_getD, List.getElem?_eq_getElem hr]
  · rw [List.getElem?_eq_none (by omega)]
    rw [List.getD_eq_getElem?_getD, List.getElem?_eq_none (by omega)]
    simp

/-- C1 (amended): any edge row of the encoder output that was left entirely
zero is defaulted by setting a 1 at the fixed literal column 7 — a hardcoded
position, which coincides with the 'none' position only for vocabularies such
as the default 8-operation one whose 'none' sits at index 7. -/
theorem c1_fallback_is_column7 (n_nodes : ℕ) (bol : List String) (geno : GenotypeT)
    (r : ℕ) :
    ((genotype_to_onehot_sample n_nodes bol geno).getD r [] =
      if ((encode_pre n_nodes bol geno).getD r []).sum = 0
      then ((encode_pre n_nodes bol geno).getD r []).set 7 1
      else (encode_pre n_nodes bol geno).getD r []) ∧
    (8 ≤ bol.length → r < 2 * num_edges_calc n_nodes →
      ((encode_pre n_nodes bol geno).getD r []).sum = 0 →
      ((genotype_to_onehot_sample n_nodes bol geno).getD r []).getD 7 0 = 1) ∧
    DARTS_DEFAULT_OPS.getD 7 "" = "none" ∧ DARTS_DEFAULT_OPS.indexOf "none" = 7 := by
  have hmain := genotype_onehot_getD n_nodes bol geno r
  refine ⟨hmain, ?_, by decide, by decide⟩
  intro hb hr hSum
  rw [hmain, if_pos hSum, List.getD_eq_getElem?_getD, List.getElem?_set_self]
  · rfl
  · rw [encode_pre_row_length n_nodes bol geno r hr]
    omega

/-- C1 witness: for the counterexample genotype (nothing selected), every row
is all-zero before the default step, and e.g. row 0 of the final encoding has
a 1 at column 7. -/
theorem c1_fallback_is_column7_witness :
    8 ≤ GDAS_OP.length ∧ (0 : ℕ) < 2 * num_edges_calc 1 ∧
    ((encode_pre 1 GDAS_OP c1CexGeno).getD 0 []).sum = 0 ∧
    ((genotype_to_onehot_sample 1 GDAS_OP c1CexGeno).getD 0 []).getD 7 0 = 1 :=
  ⟨by decide, by decide, by decide,
   (c1_fallback_is_column7 1 GDAS_OP c1CexGeno 0).2.1 (by decide) (by decide)
     (by decide)⟩

/-! Row arithmetic of the encoder. -/

theorem take_range' : ∀ (n i s : ℕ), i ≤ n → (List.range' s n).take i = List.range' s i := by
  intro n
  induction n with
  | zero => intro i s h; interval_cases i; rfl
  | succ n ih =>
      intro i s h
      cases i with
      | zero => rfl
      | succ i =>
          rw [List.range'_succ, List.range'_succ, List.take_cons (by omega)]
          simp only [Nat.add_sub_cancel]
          rw [ih i (s + 1) (by omega)]

/-- The branch-heavy true_id computation equals op_id + Σ_t<i (2+t) + j * num_edges. -/
theorem true_id_eq (n i op j : ℕ) (hi : i < n) :
    true_id_calc (List.range' 2 n) (num_edges_calc n) i op j =
      op + edge_offset i + j * num_edges_calc n := by
  rw [true_id_calc]
  by_cases h0 : i = 0
  · subst h0
    rw [if_pos rfl]
    simp [edge_offset]
  · by_cases h1 : i = 1
    · subst h1
      rw [if_neg h0, if_pos rfl]
      have hg : (List.range' 2 n).getD 0 0 = 2 := by
        cases n with
        | zero => omega
        | succ m => rw [List.range'_succ]; rfl
      rw [hg]
      simp [edge_offset]
    · rw [if_neg h0, if_neg h1, take_range' n i 2 (le_of_lt hi)]
      have hsum : (List.range' 2 i).sum = edge_offset i := num_edges_calc_eq_edge_offset i
      rw [hsum]

theorem edge_offset_row_lt (i e : ℕ) (he : e < 2 + i) :
    edge_offset i + e < edge_offset (i + 1) := by
  simp [edge_offset]
  omega

theorem row_lt_num_edges (n i e : ℕ) (hi : i < n) (he : e < 2 + i) :
    edge_offset i + e < num_edges_calc n := by
  rw [num_edges_calc_eq_edge_offset]
  exact lt_of_lt_of_le (edge_offset_row_lt i e he) (edge_offset_mono hi)

/-! Row characterization of apply_node. -/

theorem apply_node_cons (bol : List String) (ns : List ℕ) (E j i : ℕ)
    (op : String × ℕ) (rest : List (String × ℕ)) (m : List (List ℤ)) :
    apply_node bol ns E j i (op :: rest) m =
      apply_node bol ns E j i rest
        (set_entry m (true_id_calc ns E i op.2 j) (bol.indexOf op.1)) := rfl

theorem apply_node_untouched (bol : List String) (ns : List ℕ) (E j i : ℕ) :
    ∀ (node : List (String × ℕ)) (m : List (List ℤ)) (r : ℕ),
      (∀ op ∈ node, true_id_calc ns E i op.2 j ≠ r) →
      (apply_node bol ns E j i node m).getD r [] = m.getD r [] := by
  intro node
  induction node with
  | nil => intro m r _; rfl
  | cons op rest ih =>
      intro m r hne
      rw [apply_node_cons, ih _ r (fun o ho => hne o (by simp [ho])),
        set_entry_getD, if_neg]
      intro hcon
      exact hne op (by simp) hcon.1

theorem find?_congr_mem {α : Type} (p q : α → Bool) :
    ∀ (l : List α), (∀ x ∈ l, p x = q x) → l.find? p = l.find? q := by
  intro l
  induction l with
  | nil => intro _; rfl
  | cons x xs ih =>
      intro h
      rw [List.find?_cons, List.find?_cons, h x (by simp),
        ih (fun y hy => h y (by simp [hy]))]

theorem apply_node_row (bol : List String) (ns : List ℕ) (E j i : ℕ) :
    ∀ (node : List (String × ℕ)) (m : List (List ℤ)) (r : ℕ),
      List.Pairwise (fun o1 o2 : String × ℕ =>
        true_id_calc ns E i o1.2 j ≠ true_id_calc ns E i o2.2 j) node →
      r < m.length →
      (apply_node bol ns E j i node m).getD r [] =
        match node.find? (fun op => true_id_calc ns E i op.2 j == r) with
        | some op => (m.getD r []).set (bol.indexOf op.1) 1
        | none => m.getD r [] := by
  intro node
  induction node with
  | nil => intro m r _ _; rfl
  | cons op rest ih =>
      intro m r hpw hr
      rw [apply_node_cons, List.find?_cons]
      by_cases htid : true_id_calc ns E i op.2 j = r
      · have hbeq : (true_id_calc ns E i op.2 j == r) = true := by
          simp [htid]
        rw [hbeq]
        rw [apply_node_untouched bol ns E j i rest _ r
          (fun o ho => by
            have := (List.pairwise_cons.mp hpw).1 o ho
            rw [htid] at this
            exact fun hcon => this hcon.symm)]
        rw [set_entry_getD, if_pos ⟨htid, by omega⟩, htid]
      · have hbeq : (true_id_calc ns E i op.2 j == r) = false := by
          simp [htid]
        rw [hbeq]
        have hm1 : (set_entry m (true_id_calc ns E i op.2 j)
            (bol.indexOf op.1)).getD r [] = m.getD r [] := by
          rw [set_entry_getD, if_neg (fun hcon => htid hcon.1)]
        rw [ih _ r (List.pairwise_cons.mp hpw).2 (by rw [set_entry_length]; exact hr)]
        cases hfind : rest.find? (fun o => true_id_calc ns E i o.2 j == r) with
        | none => simp only [hm1]
        | some o2 => simp only [hm1]

/-! Row characterization of apply_gene and of the full encoder. -/

theorem apply_gene_cons (bol : List String) (ns : List ℕ) (E j i : ℕ)
    (node : List (String × ℕ)) (rest : List (List (String × ℕ)))
    (m : List (List ℤ)) :
    apply_gene bol ns E j i (node :: rest) m =
      apply_gene bol ns E j (i + 1) rest (apply_node bol ns E j i node m) := rfl

theorem apply_gene_untouched (bol : List String) (ns : List ℕ) (E j : ℕ) :
    ∀ (gene : List (List (String × ℕ))) (i0 : ℕ) (m : List (List ℤ)) (r : ℕ),
      (∀ t, t < gene.length → ∀ op ∈ gene.getD t [],
        true_id_calc ns E (i0 + t) op.2 j ≠ r) →
      (apply_gene bol ns E j i0 gene m).getD r [] = m.getD r [] := by
  intro gene
  induction gene with
  | nil => intro i0 m r _; rfl
  | cons node rest ih =>
      intro i0 m r hne
      rw [apply_gene_cons, ih (i0 + 1) _ r (fun t ht op hop => by
        have h2 := hne (t + 1) (by simpa using ht) op (by simpa using hop)
        have h3 : i0 + (t + 1) = i0 + 1 + t := by omega
        rw [h3] at h2
        exact h2)]
      exact apply_node_untouched bol ns E j i0 node m r (fun op hop => by
        have := hne 0 (by simp) op (by simpa using hop)
        simpa using this)

/-- Main row characterization: after applying one gene starting at node index
i0, the row of edge (node i0+i, predecessor e) holds a 1 at the column of the
op selecting e in that node (if any), over whatever the row held in m. -/
theorem apply_gene_row (n : ℕ) (bol : List String) (j : ℕ) (hj : j ≤ 1) :
    ∀ (gene : List (List (String × ℕ))) (i0 : ℕ) (m : List (List ℤ)) (i e : ℕ),
      i0 + gene.length ≤ n →
      (∀ t, t < gene.length → ∀ op ∈ gene.getD t [], op.2 < 2 + (i0 + t)) →
      (∀ t, t < gene.length →
        List.Pairwise (fun o1 o2 : String × ℕ => o1.2 ≠ o2.2) (gene.getD t [])) →
      m.length = 2 * num_edges_calc n →
      i < gene.length → e < 2 + (i0 + i) →
      (apply_gene bol (List.range' 2 n) (num_edges_calc n) j i0 gene m).getD
          (j * num_edges_calc n + (edge_offset (i0 + i) + e)) [] =
        match (gene.getD i []).find? (fun op => op.2 == e) with
        | some op => (m.getD (j * num_edges_calc n + (edge_offset (i0 + i) + e)) []).set
            (bol.indexOf op.1) 1
        | none => m.getD (j * num_edges_calc n + (edge_offset (i0 + i) + e)) [] := by
  intro gene
  induction gene with
  | nil => intro i0 m i e _ _ _ _ hi _; simp at hi
  | cons node rest ih =>
      intro i0 m i e hlen hbound hpw hm hi he
      have hi0n : i0 < n := by
        simp only [List.length_cons] at hlen
        omega
      cases i with
      | zero =>
          simp only [Nat.add_zero] at he ⊢
          rw [apply_gene_cons]
          have hrlt : edge_offset i0 + e < num_edges_calc n :=
            row_lt_num_edges n i0 e hi0n he
          rw [apply_gene_untouched bol (List.range' 2 n) (num_edges_calc n) j rest
            (i0 + 1) _ _ (fun t ht op hop => by
              have htn : i0 + 1 + t < n := by
                simp only [List.length_cons] at hlen
                omega
              rw [true_id_eq n (i0 + 1 + t) op.2 j htn]
              have hmono : edge_offset (i0 + 1) ≤ edge_offset (i0 + 1 + t) :=
                edge_offset_mono (by omega)
              have hstep : edge_offset i0 + e < edge_offset (i0 + 1) :=
                edge_offset_row_lt i0 e he
              omega)]
          have hnodepw : List.Pairwise (fun o1 o2 : String × ℕ =>
              true_id_calc (List.range' 2 n) (num_edges_calc n) i0 o1.2 j ≠
              true_id_calc (List.range' 2 n) (num_edges_calc n) i0 o2.2 j) node := by
            have h0 := hpw 0 (by simp)
            simp only [List.getD_cons_zero] at h0
            refine List.Pairwise.imp ?_ h0
            intro o1 o2 hne12
            rw [true_id_eq n i0 o1.2 j hi0n, true_id_eq n i0 o2.2 j hi0n]
            omega
          have hje : j * num_edges_calc n ≤ 1 * num_edges_calc n :=
            Nat.mul_le_mul_right _ hj
          rw [apply_node_row bol (List.range' 2 n) (num_edges_calc n) j i0 node m _
            hnodepw (by omega)]
          have hfc := find?_congr_mem
            (fun op : String × ℕ =>
              true_id_calc (List.range' 2 n) (num_edges_calc n) i0 op.2 j ==
                j * num_edges_calc n + (edge_offset i0 + e))
            (fun op : String × ℕ => op.2 == e) node (by
              intro x _
              show (true_id_calc (List.range' 2 n) (num_edges_calc n) i0 x.2 j ==
                j * num_edges_calc n + (edge_offset i0 + e)) = (x.2 == e)
              rw [true_id_eq n i0 x.2 j hi0n]
              by_cases hx : x.2 = e
              · have h1 : x.2 + edge_offset i0 + j * num_edges_calc n =
                    j * num_edges_calc n + (edge_offset i0 + e) := by omega
                rw [h1, hx]
                simp
              · have h1 : x.2 + edge_offset i0 + j * num_edges_calc n ≠
                    j * num_edges_calc n + (edge_offset i0 + e) := by omega
                rw [beq_eq_false_iff_ne.mpr h1, beq_eq_false_iff_ne.mpr hx])
          rw [hfc]
          simp only [List.getD_cons_zero]
      | succ t =>
          simp only [List.length_cons] at hlen
          rw [apply_gene_cons]
          have hadd : i0 + (t + 1) = i0 + 1 + t := by omega
          rw [hadd] at he ⊢
          have huntouched : (apply_node bol (List.range' 2 n) (num_edges_calc n) j i0
              node m).getD (j * num_edges_calc n + (edge_offset (i0 + 1 + t) + e)) [] =
              m.getD (j * num_edges_calc n + (edge_offset (i0 + 1 + t) + e)) [] := by
            apply apply_node_untouched
            intro op hop
            have hb := hbound 0 (by simp) op (by simpa using hop)
            simp only [Nat.add_zero] at hb
            rw [true_id_eq n i0 op.2 j hi0n]
            have hstep : edge_offset i0 + op.2 < edge_offset (i0 + 1) :=
              edge_offset_row_lt i0 op.2 hb
            have hmono : edge_offset (i0 + 1) ≤ edge_offset (i0 + 1 + t) :=
              edge_offset_mono (by omega)
            omega
          have hih := ih (i0 + 1) (apply_node bol (List.range' 2 n)
              (num_edges_calc n) j i0 node m) t e (by omega)
            (fun s hs op hop => by
              have h2 := hbound (s + 1) (by simpa using Nat.succ_lt_succ hs) op
                (by simpa using hop)
              have h3 : i0 + (s + 1) = i0 + 1 + s := by omega
              rw [h3] at h2
              exact h2)
            (fun s hs => by
              have := hpw (s + 1) (by simpa using Nat.succ_lt_succ hs)
              simpa using this)
            (by rw [apply_node_length]; exact hm)
            (by simpa using hi) he
          rw [hih, huntouched]
          simp only [List.getD_cons_succ]

/-- Well-formedness of one node of a discretization-produced genotype: exactly
two (op-name, predecessor) pairs with distinct predecessors below 2+i, each op
drawn from the vocabulary excluding its last entry. -/
def WFnode (bol : List String) (i : ℕ) (node : List (String × ℕ)) : Prop :=
  ∃ a p b q, node = [(a, p), (b, q)] ∧ p ≠ q ∧ p < 2 + i ∧ q < 2 + i ∧
    (∃ pa, pa + 1 < bol.length ∧ bol.getD pa "" = a) ∧
    (∃ pb, pb + 1 < bol.length ∧ bol.getD pb "" = b)

/-- Well-formedness of a gene: one well-formed node per intermediate node. -/
def WFgene (n : ℕ) (bol : List String) (gene : List (List (String × ℕ))) : Prop :=
  gene.length = n ∧ ∀ i, i < n → WFnode bol i (gene.getD i [])

theorem WFgene_bound {n : ℕ} {bol : List String} {gene : List (List (String × ℕ))}
    (h : WFgene n bol gene) :
    ∀ t, t < gene.length → ∀ op ∈ gene.getD t [], op.2 < 2 + (0 + t) := by
  intro t ht op hop
  obtain ⟨a, p, b, q, hnn, _, hp, hq, _, _⟩ := h.2 t (h.1 ▸ ht)
  rw [hnn] at hop
  simp only [List.mem_cons, List.not_mem_nil, or_false] at hop
  rcases hop with h1 | h1 <;> subst h1 <;> simpa

theorem WFgene_pw {n : ℕ} {bol : List String} {gene : List (List (String × ℕ))}
    (h : WFgene n bol gene) :
    ∀ t, t < gene.length →
      List.Pairwise (fun o1 o2 : String × ℕ => o1.2 ≠ o2.2) (gene.getD t []) := by
  intro t ht
  obtain ⟨a, p, b, q, hnn, hpq, _, _, _, _⟩ := h.2 t (h.1 ▸ ht)
  rw [hnn]
  simp [List.pairwise_cons, hpq]

/-- Row characterization of the full encoder before the default step: for cell
kind j, node i, predecessor e, the row is the one-hot of the op selecting e in
that node, or all-zero when the node does not select e. -/
theorem encode_pre_row (n : ℕ) (bol : List String) (geno : GenotypeT)
    (hwn : WFgene n bol geno.normal) (hwr : WFgene n bol geno.reduce)
    (j i e : ℕ) (hj : j ≤ 1) (hi : i < n) (he : e < 2 + i) :
    (encode_pre n bol geno).getD (j * num_edges_calc n + (edge_offset i + e)) [] =
      match ((if j = 0 then geno.normal else geno.reduce).getD i []).find?
          (fun op => op.2 == e) with
      | some op => (List.replicate bol.length (0:ℤ)).set (bol.indexOf op.1) 1
      | none => List.replicate bol.length (0:ℤ) := by
  have hrow : edge_offset i + e < num_edges_calc n := row_lt_num_edges n i e hi he
  have hE : num_edges_calc n = edge_offset n := num_edges_calc_eq_edge_offset n
  have hs0get : ∀ r, r < 2 * num_edges_calc n →
      (List.replicate (2 * num_edges_calc n)
        (List.replicate bol.length (0:ℤ))).getD r [] =
      List.replicate bol.length (0:ℤ) := by
    intro r hr
    rw [List.getD_eq_getElem?_getD, List.getElem?_replicate, if_pos hr]
    rfl
  have hs1len : (apply_gene bol (List.range' 2 n) (num_edges_calc n) 0 0 geno.normal
      (List.replicate (2 * num_edges_calc n)
        (List.replicate bol.length (0:ℤ)))).length = 2 * num_edges_calc n := by
    rw [apply_gene_length, List.length_replicate]
  show (apply_gene bol (List.range' 2 n) (num_edges_calc n) 1 0 geno.reduce
    (apply_gene bol (List.range' 2 n) (num_edges_calc n) 0 0 geno.normal
      (List.replicate (2 * num_edges_calc n)
        (List.replicate bol.length (0:ℤ))))).getD
      (j * num_edges_calc n + (edge_offset i + e)) [] = _
  interval_cases j
  · -- j = 0: the reduce pass does not touch rows below num_edges
    rw [apply_gene_untouched bol (List.range' 2 n) (num_edges_calc n) 1 geno.reduce 0 _ _
      (fun t ht op hop => by
        have htn : 0 + t < n := by rw [hwr.1] at ht; omega
        rw [true_id_eq n (0 + t) op.2 1 htn]
        omega)]
    have h1 := apply_gene_row n bol 0 (by omega) geno.normal 0
      (List.replicate (2 * num_edges_calc n) (List.replicate bol.length (0:ℤ)))
      i e (by rw [hwn.1]; omega) (WFgene_bound hwn) (WFgene_pw hwn)
      (by rw [List.length_replicate]) (by rw [hwn.1]; exact hi) (by simpa using he)
    simp only [Nat.zero_add, Nat.zero_mul] at h1
    have hz : (0 : ℕ) * num_edges_calc n + (edge_offset i + e) = edge_offset i + e := by
      omega
    rw [hz, h1]
    have hif : (if (0:ℕ) = 0 then geno.normal else geno.reduce) = geno.normal :=
      if_pos rfl
    rw [hif]
    cases hfind : (geno.normal.getD i []).find? (fun op => op.2 == e) with
    | none => exact hs0get (edge_offset i + e) (by omega)
    | some op =>
        show ((List.replicate (2 * num_edges_calc n)
          (List.replicate bol.length (0:ℤ))).getD (edge_offset i + e) []).set
            (bol.indexOf op.1) 1 =
          (List.replicate bol.length (0:ℤ)).set (bol.indexOf op.1) 1
        rw [hs0get (edge_offset i + e) (by omega)]
  · -- j = 1: the normal pass only touches rows below num_edges
    have h1 := apply_gene_row n bol 1 (by omega) geno.reduce 0
      (apply_gene bol (List.range' 2 n) (num_edges_calc n) 0 0 geno.normal
        (List.replicate (2 * num_edges_calc n) (List.replicate bol.length (0:ℤ))))
      i e (by rw [hwr.1]; omega) (WFgene_bound hwr) (WFgene_pw hwr)
      hs1len (by rw [hwr.1]; exact hi) (by simpa using he)
    simp only [Nat.zero_add] at h1
    rw [h1]
    have h2 : (apply_gene bol (List.range' 2 n) (num_edges_calc n) 0 0 geno.normal
        (List.replicate (2 * num_edges_calc n)
          (List.replicate bol.length (0:ℤ)))).getD
        (1 * num_edges_calc n + (edge_offset i + e)) [] =
        List.replicate bol.length (0:ℤ) := by
      rw [apply_gene_untouched bol (List.range' 2 n) (num_edges_calc n) 0 geno.normal 0 _ _
        (fun t ht op hop => by
          have htn : 0 + t < n := by rw [hwn.1] at ht; omega
          have hb := WFgene_bound hwn t ht op hop
          rw [true_id_eq n (0 + t) op.2 0 htn]
          have hstep : edge_offset (0 + t) + op.2 < edge_offset (0 + t + 1) :=
            edge_offset_row_lt (0 + t) op.2 (by omega)
          have hmono : edge_offset (0 + t + 1) ≤ edge_offset n :=
            edge_offset_mono (by omega)
          omega)]
      exact hs0get (1 * num_edges_calc n + (edge_offset i + e)) (by omega)
    rw [h2]
    have hif1 : (if (1:ℕ) = 0 then geno.normal else geno.reduce) = geno.reduce :=
      if_neg (by omega)
    rw [hif1]

/-! Evaluation of the discretizer on one-hot rows. -/

theorem dropLast_replicate_set (L c : ℕ) :
    ((List.replicate (L + 1) (0:ℤ)).set c 1).dropLast =
      (List.replicate L (0:ℤ)).set c 1 := by
  rw [List.dropLast_eq_take, List.length_set, List.length_replicate,
    Nat.add_sub_cancel, List.set_take, List.take_replicate,
    Nat.min_eq_left (by omega)]

theorem replicate_set_last (L : ℕ) :
    (List.replicate L (0:ℤ)).set L 1 = List.replicate L (0:ℤ) :=
  List.set_eq_of_length_le (by simp)

theorem topk1_replicate_zero : ∀ L : ℕ, topk1 (List.replicate L (0:ℤ)) = (0, 0) := by
  intro L
  induction L with
  | zero => rfl
  | succ L ih =>
      cases L with
      | zero => rfl
      | succ L2 =>
          rw [List.replicate_succ, List.replicate_succ]
          rw [List.replicate_succ] at ih
          show topk1 (0 :: 0 :: List.replicate L2 0) = (0, 0)
          rw [topk1]
          simp only [ih]
          norm_num

theorem topk1_onehot : ∀ (L c : ℕ), c < L →
    topk1 ((List.replicate L (0:ℤ)).set c 1) = (1, c) := by
  intro L
  induction L with
  | zero => intro c hc; omega
  | succ L ih =>
      intro c hc
      cases c with
      | zero =>
          rw [List.replicate_succ, List.set_cons_zero]
          cases L with
          | zero => rfl
          | succ L2 =>
              show topk1 (1 :: List.replicate (L2 + 1) 0) = (1, 0)
              rw [List.replicate_succ, topk1]
              rw [List.replicate_succ] at *
              have hz := topk1_replicate_zero (L2 + 1)
              rw [List.replicate_succ] at hz
              simp only [hz]
              norm_num
      | succ c2 =>
          have hcl : c2 < L := by omega
          have hL1 : 1 ≤ L := by omega
          rw [List.replicate_succ, List.set_cons_succ]
          have hne : (List.replicate L (0:ℤ)).set c2 1 ≠ [] := by
            intro hcon
            have := congrArg List.length hcon
            simp at this
            omega
          cases hrep : (List.replicate L (0:ℤ)).set c2 1 with
          | nil => exact absurd hrep hne
          | cons y ys =>
              show topk1 (0 :: y :: ys) = (1, c2 + 1)
              rw [topk1]
              have hih := ih c2 hcl
              rw [hrep] at hih
              simp only [hih]
              norm_num

theorem pick_best_of_max (l : List ℤ) :
    ∀ (is : List ℕ) (b : ℕ), l.getD b 0 = 1 → (∀ t ∈ is, l.getD t 0 ≤ 1) →
      pick_best l b is = b := by
  intro is
  induction is with
  | nil => intro b _ _; rfl
  | cons i is ih =>
      intro b hb hle
      rw [pick_best, if_neg (by
        have := hle i (by simp)
        omega)]
      exact ih b hb (fun t ht => hle t (by simp [ht]))

theorem pick_best_of_zero (l : List ℤ) :
    ∀ (is : List ℕ) (b : ℕ), l.getD b 0 = 0 →
      (∀ t ∈ is, l.getD t 0 = 0 ∨ l.getD t 0 = 1) →
      pick_best l b is = (is.find? (fun t => l.getD t 0 == 1)).getD b := by
  intro is
  induction is with
  | nil => intro b _ _; rfl
  | cons i is ih =>
      intro b hb hbin
      rcases hbin i (by simp) with h1 | h1
      · rw [pick_best, if_neg (by omega), List.find?_cons,
          show ((l.getD i 0 == 1) = false) by rw [h1]; decide]
        exact ih b hb (fun t ht => hbin t (by simp [ht]))
      · rw [pick_best, if_pos (by omega), List.find?_cons,
          show ((l.getD i 0 == 1) = true) by rw [h1]; decide]
        exact pick_best_of_max l is i h1 (fun t ht => by
          rcases hbin t (by simp [ht]) with h2 | h2 <;> omega)

theorem argmax_not_in_eq (l : List ℤ) (used : List ℕ) (w : ℕ)
    (hbin : ∀ t, l.getD t 0 = 0 ∨ l.getD t 0 = 1)
    (hfind : ((List.range l.length).filter
        (fun t => decide (t ∉ used))).find? (fun t => l.getD t 0 == 1) = some w) :
    argmax_not_in l used = w := by
  rw [argmax_not_in]
  cases hc : (List.range l.length).filter (fun t => decide (t ∉ used)) with
  | nil => rw [hc] at hfind; simp at hfind
  | cons c cs =>
      rw [hc, List.find?_cons] at hfind
      show pick_best l c cs = w
      rcases hbin c with h1 | h1
      · rw [show ((l.getD c 0 == 1) = false) by rw [h1]; decide] at hfind
        have hfind2 : List.find? (fun t => l.getD t 0 == 1) cs = some w := hfind
        rw [pick_best_of_zero l cs c h1 (fun t _ => hbin t), hfind2]
        rfl
      · rw [show ((l.getD c 0 == 1) = true) by rw [h1]; decide] at hfind
        have hfind2 : some c = some w := hfind
        simp only [Option.some_inj] at hfind2
        rw [← hfind2]
        exact pick_best_of_max l cs c h1 (fun t _ => by rcases hbin t with h2 | h2 <;> omega)

/-! The top-2 edge selection on a 0/1 score list with exactly two ones. -/

theorem find_one_range' (l : List ℤ) (p q : ℕ)
    (hl : ∀ x, l.getD x 0 = if x = p ∨ x = q then 1 else 0) :
    ∀ (k a : ℕ), a ≤ min p q → min p q < a + k →
      (List.range' a k).find? (fun t => l.getD t 0 == 1) = some (min p q) := by
  intro k
  induction k with
  | zero => intro a h1 h2; omega
  | succ k ih =>
      intro a h1 h2
      rw [List.range'_succ, List.find?_cons]
      by_cases ha : a = min p q
      · have hmem : a = p ∨ a = q := by
          rcases Nat.le_total p q with h | h
          · left; omega
          · right; omega
        rw [show ((l.getD a 0 == 1) = true) by rw [hl a, if_pos hmem]; decide, ha]
      · have hnot : ¬ (a = p ∨ a = q) := by omega
        rw [show ((l.getD a 0 == 1) = false) by rw [hl a, if_neg hnot]; decide]
        exact ih (a + 1) (by omega) (by omega)

theorem find_one_range'_filtered (l : List ℤ) (p q : ℕ) (hpq : p ≠ q)
    (hl : ∀ x, l.getD x 0 = if x = p ∨ x = q then 1 else 0) :
    ∀ (k a : ℕ), a ≤ max p q → max p q < a + k →
      ((List.range' a k).filter
        (fun t => decide (t ∉ [min p q]))).find? (fun t => l.getD t 0 == 1) =
        some (max p q) := by
  intro k
  induction k with
  | zero => intro a h1 h2; omega
  | succ k ih =>
      intro a h1 h2
      rw [List.range'_succ]
      by_cases hu : a = min p q
      · rw [List.filter_cons_of_neg (by simp [hu])]
        exact ih (a + 1) (by omega) (by omega)
      · rw [List.filter_cons_of_pos (by simp [hu])]
        rw [List.find?_cons]
        by_cases hv : a = max p q
        · have hmem : a = p ∨ a = q := by
            rcases Nat.le_total p q with h | h
            · right; omega
            · left; omega
          rw [show ((l.getD a 0 == 1) = true) by rw [hl a, if_pos hmem]; decide, hv]
        · have hnot : ¬ (a = p ∨ a = q) := by omega
          rw [show ((l.getD a 0 == 1) = false) by rw [hl a, if_neg hnot]; decide]
          exact ih (a + 1) (by omega) (by omega)

theorem topk2_pair (l : List ℤ) (p q : ℕ) (hpq : p ≠ q) (hp : p < l.length)
    (hq : q < l.length)
    (hl : ∀ x, l.getD x 0 = if x = p ∨ x = q then 1 else 0) :
    topk_indices l 2 [] = [min p q, max p q] := by
  have hbin : ∀ t, l.getD t 0 = 0 ∨ l.getD t 0 = 1 := by
    intro t
    rw [hl t]
    by_cases h : t = p ∨ t = q <;> simp [h]
  have hfilter_nil : (List.range l.length).filter
      (fun t => decide (t ∉ ([] : List ℕ))) = List.range l.length := by
    apply List.filter_eq_self.mpr
    intro a _
    simp
  have h1 : argmax_not_in l [] = min p q := by
    apply argmax_not_in_eq l [] (min p q) hbin
    rw [hfilter_nil, List.range_eq_range']
    exact find_one_range' l p q hl l.length 0 (by omega) (by omega)
  have h2 : argmax_not_in l [min p q] = max p q := by
    apply argmax_not_in_eq l [min p q] (max p q) hbin
    rw [List.range_eq_range']
    exact find_one_range'_filtered l p q hpq hl l.length 0 (by omega) (by omega)
  rw [topk_indices, h1]
  rw [topk_indices, List.nil_append, h2]
  rfl

/-! Recovering op names through index. -/

theorem indexOf_getD_spec (l : List String) :
    ∀ (pa : ℕ) (a : String), pa < l.length → l.getD pa "" = a →
      l.indexOf a ≤ pa ∧ l.getD (l.indexOf a) "" = a := by
  induction l with
  | nil => intro pa a h _; simp at h
  | cons x xs ih =>
      intro pa a hpa hget
      rw [List.indexOf_cons]
      by_cases hx : x = a
      · rw [show ((x == a) = true) by simp [hx]]
        exact ⟨Nat.zero_le pa, by simpa using hx⟩
      · rw [show ((x == a) = false) by simp [hx]]
        cases pa with
        | zero =>
            exact absurd (by simpa using hget) hx
        | succ s =>
            have hs : s < xs.length := by simpa using hpa
            have hget2 : xs.getD s "" = a := by simpa using hget
            obtain ⟨h1, h2⟩ := ih s a hs hget2
            refine ⟨by simpa using Nat.succ_le_succ h1, ?_⟩
            simpa using h2

theorem sum_replicate_zero (L : ℕ) : (List.replicate L (0:ℤ)).sum = 0 := by
  simp

theorem sum_replicate_set_one : ∀ (L c : ℕ), c < L →
    ((List.replicate L (0:ℤ)).set c 1).sum = 1 := by
  intro L
  induction L with
  | zero => intro c h; omega
  | succ L ih =>
      intro c h
      rw [List.replicate_succ]
      cases c with
      | zero =>
          rw [List.set_cons_zero, List.sum_cons, sum_replicate_zero]
          norm_num
      | succ c2 =>
          rw [List.set_cons_succ, List.sum_cons, ih c2 (by omega)]
          norm_num

/-- Every op of a well-formed gene has its name recoverable through indexOf,
with the index strictly inside the vocabulary (never the last 'none' slot). -/
theorem WF_indexOf_lt {n : ℕ} {bol : List String} {gene : List (List (String × ℕ))}
    (h : WFgene n bol gene) (i : ℕ) (hi : i < n) (op : String × ℕ)
    (hop : op ∈ gene.getD i []) :
    bol.indexOf op.1 + 1 < bol.length ∧ bol.getD (bol.indexOf op.1) "" = op.1 := by
  obtain ⟨a, p, b, q, hnode, _, _, _, ⟨pa, hpa, hga⟩, ⟨pb, hpb, hgb⟩⟩ := h.2 i hi
  rw [hnode] at hop
  simp only [List.mem_cons, List.not_mem_nil, or_false] at hop
  rcases hop with h1 | h1 <;> subst h1
  · obtain ⟨hle, hg⟩ := indexOf_getD_spec bol pa a (by omega) hga
    exact ⟨by show bol.indexOf a + 1 < bol.length; omega, hg⟩
  · obtain ⟨hle, hg⟩ := indexOf_getD_spec bol pb b (by omega) hgb
    exact ⟨by show bol.indexOf b + 1 < bol.length; omega, hg⟩

/-- Row characterization of the final one-hot encoding on a well-formed
genotype: the row of (kind j, node i, predecessor e) is one-hot at the column
of the op selecting e, or one-hot at the fixed default column 7 when no op
selects e. -/
theorem genotype_onehot_row (n : ℕ) (bol : List String) (geno : GenotypeT)
    (hwn : WFgene n bol geno.normal) (hwr : WFgene n bol geno.reduce)
    (j i e : ℕ) (hj : j ≤ 1) (hi : i < n) (he : e < 2 + i) :
    (genotype_to_onehot_sample n bol geno).getD
        (j * num_edges_calc n + (edge_offset i + e)) [] =
      match ((if j = 0 then geno.normal else geno.reduce).getD i []).find?
          (fun op => op.2 == e) with
      | some op => (List.replicate bol.length (0:ℤ)).set (bol.indexOf op.1) 1
      | none => (List.replicate bol.length (0:ℤ)).set 7 1 := by
  have hw : WFgene n bol (if j = 0 then geno.normal else geno.reduce) := by
    by_cases h : j = 0 <;> simp [h, hwn, hwr]
  rw [genotype_onehot_getD, encode_pre_row n bol geno hwn hwr j i e hj hi he]
  cases hfind : ((if j = 0 then geno.normal else geno.reduce).getD i []).find?
      (fun op => op.2 == e) with
  | none =>
      show (if (List.replicate bol.length (0:ℤ)).sum = 0
        then (List.replicate bol.length (0:ℤ)).set 7 1
        else List.replicate bol.length (0:ℤ)) = (List.replicate bol.length (0:ℤ)).set 7 1
      rw [if_pos (sum_replicate_zero bol.length)]
  | some op =>
      have hmem : op ∈ (if j = 0 then geno.normal else geno.reduce).getD i [] :=
        List.mem_of_find?_eq_some hfind
      have hidx := WF_indexOf_lt hw i hi op hmem
      show (if ((List.replicate bol.length (0:ℤ)).set (bol.indexOf op.1) 1).sum = 0
        then ((List.replicate bol.length (0:ℤ)).set (bol.indexOf op.1) 1).set 7 1
        else (List.replicate bol.length (0:ℤ)).set (bol.indexOf op.1) 1) =
        (List.replicate bol.length (0:ℤ)).set (bol.indexOf op.1) 1
      rw [if_neg]
      rw [sum_replicate_set_one bol.length (bol.indexOf op.1) (by omega)]
      omega

/-! Access to the unpacked per-node groups of the encoded tensor. -/

theorem theta_len (n : ℕ) (bol : List String) (geno : GenotypeT) :
    (genotype_to_onehot_sample n bol geno).length = 2 * num_edges_calc n := by
  rw [genotype_to_onehot_sample, List.length_map, encode_pre_length]

theorem unpack_getD {α : Type} (w : List α) (N i : ℕ) (hi : i < N) :
    (darts_weight_unpack w N 2).getD i [] = (w.drop (edge_offset i)).take (2 + i) := by
  rw [darts_weight_unpack_eq, List.getD_eq_getElem?_getD, List.getElem?_map,
    List.getElem?_range hi]
  rfl

theorem unpack_length {α : Type} (w : List α) (N : ℕ) :
    (darts_weight_unpack w N 2).length = N := by
  rw [darts_weight_unpack_eq]
  simp

theorem edge_offset_succ_le (n i : ℕ) (hi : i < n) :
    edge_offset i + (2 + i) ≤ num_edges_calc n := by
  rw [num_edges_calc_eq_edge_offset]
  exact le_trans (le_of_eq (by simp [edge_offset, Nat.add_comm])) (edge_offset_mono hi)

theorem group_entry_take (theta : List (List ℤ)) (n i e : ℕ)
    (hi : i < n) (he : e < 2 + i) :
    ((darts_weight_unpack (theta.take (num_edges_calc n)) n 2).getD i []).getD e [] =
      theta.getD (edge_offset i + e) [] := by
  rw [unpack_getD _ n i hi, List.getD_eq_getElem?_getD,
    List.getElem?_take_of_lt he, List.getElem?_drop,
    List.getElem?_take_of_lt (row_lt_num_edges n i e hi he),
    ← List.getD_eq_getElem?_getD]

theorem group_entry_drop (theta : List (List ℤ)) (n i e : ℕ)
    (hi : i < n) (he : e < 2 + i) :
    ((darts_weight_unpack (theta.drop (num_edges_calc n)) n 2).getD i []).getD e [] =
      theta.getD (num_edges_calc n + (edge_offset i + e)) [] := by
  rw [unpack_getD _ n i hi, List.getD_eq_getElem?_getD,
    List.getElem?_take_of_lt he, List.getElem?_drop, List.getD_eq_getElem?_getD,
    List.getElem?_drop]

theorem group_len_take (theta : List (List ℤ)) (n i : ℕ)
    (hth : theta.length = 2 * num_edges_calc n) (hi : i < n) :
    ((darts_weight_unpack (theta.take (num_edges_calc n)) n 2).getD i []).length =
      2 + i := by
  rw [unpack_getD _ n i hi]
  have h1 := edge_offset_succ_le n i hi
  simp only [List.length_take, List.length_drop]
  omega

theorem group_len_drop (theta : List (List ℤ)) (n i : ℕ)
    (hth : theta.length = 2 * num_edges_calc n) (hi : i < n) :
    ((darts_weight_unpack (theta.drop (num_edges_calc n)) n 2).getD i []).length =
      2 + i := by
  rw [unpack_getD _ n i hi]
  have h1 := edge_offset_succ_le n i hi
  simp only [List.length_take, List.length_drop]
  omega

theorem parse_from_numpy_getD (alpha : List (List (List ℤ))) (k : ℕ)
    (bol : List String) (i : ℕ) (hi : i < alpha.length) :
    (parse_from_numpy alpha k bol).getD i [] = parse_node bol k (alpha.getD i []) := by
  rw [parse_from_numpy, List.getD_eq_getElem?_getD, List.getElem?_map,
    List.getElem?_eq_getElem hi]
  simp [List.getD_eq_getElem?_getD, List.getElem?_eq_getElem hi]

/-- parse_from_numpy's node step on an encoded group: with one-hot rows at
columns < 7 for the two selected edges p and q and the default one-hot at
column 7 on every other row, the two selected edges are recovered in edge
order with their op names read back from the vocabulary. -/
theorem parse_node_encoded (bol : List String) (group : List (List ℤ))
    (i p q ca cb : ℕ)
    (hglen : group.length = 2 + i)
    (hca : ca < 7) (hcb : cb < 7) (hpq : p ≠ q) (hp : p < 2 + i) (hq : q < 2 + i)
    (hrow : ∀ e, e < 2 + i → group.getD e [] =
      if e = p then (List.replicate 8 (0:ℤ)).set ca 1
      else if e = q then (List.replicate 8 (0:ℤ)).set cb 1
      else (List.replicate 8 (0:ℤ)).set 7 1) :
    parse_node bol 2 group =
      if p < q then [(bol.getD ca "", p), (bol.getD cb "", q)]
      else [(bol.getD cb "", q), (bol.getD ca "", p)] := by
  have hdrop : ∀ c : ℕ, ((List.replicate 8 (0:ℤ)).set c 1).dropLast =
      (List.replicate 7 (0:ℤ)).set c 1 := fun c => dropLast_replicate_set 7 c
  have hescore : ∀ e, e < 2 + i →
      (group.map (fun row => topk1 row.dropLast)).getD e (0, 0) =
        if e = p then ((1:ℤ), ca) else if e = q then ((1:ℤ), cb) else ((0:ℤ), 0) := by
    intro e he
    have hidx : e < group.length := by omega
    rw [List.getD_eq_getElem?_getD, List.getElem?_map, List.getElem?_eq_getElem hidx]
    have hge : group[e] = group.getD e [] := by
      rw [List.getD_eq_getElem?_getD, List.getElem?_eq_getElem hidx]
      rfl
    simp only [Option.map_some', Option.getD_some, hge]
    rw [hrow e he]
    by_cases hep : e = p
    · rw [if_pos hep, if_pos hep, hdrop ca, topk1_onehot 7 ca hca]
    · rw [if_neg hep, if_neg hep]
      by_cases heq : e = q
      · rw [if_pos heq, if_pos heq, hdrop cb, topk1_onehot 7 cb hcb]
      · rw [if_neg heq, if_neg heq, hdrop 7, replicate_set_last 7,
          topk1_replicate_zero 7]
  have hslen : ((group.map (fun row => topk1 row.dropLast)).map Prod.fst).length =
      2 + i := by
    simp [hglen]
  have hl : ∀ x, ((group.map (fun row => topk1 row.dropLast)).map Prod.fst).getD x 0 =
      if x = p ∨ x = q then 1 else 0 := by
    intro x
    by_cases hx : x < 2 + i
    · have hidx : x < (group.map (fun row => topk1 row.dropLast)).length := by
        simp [hglen]; omega
      rw [List.getD_eq_getElem?_getD, List.getElem?_map,
        List.getElem?_eq_getElem hidx]
      have hge : (group.map (fun row => topk1 row.dropLast))[x] =
          (group.map (fun row => topk1 row.dropLast)).getD x (0, 0) := by
        rw [List.getD_eq_getElem?_getD, List.getElem?_eq_getElem hidx]
        rfl
      simp only [Option.map_some', Option.getD_some, hge]
      rw [hescore x hx]
      by_cases hxp : x = p
      · rw [if_pos hxp, if_pos (Or.inl hxp)]
      · rw [if_neg hxp]
        by_cases hxq : x = q
        · rw [if_pos hxq, if_pos (Or.inr hxq)]
        · rw [if_neg hxq, if_neg (by tauto)]
    · rw [List.getD_eq_getElem?_getD, List.getElem?_eq_none (by
        rw [hslen]; omega)]
      rw [if_neg (by omega)]
      rfl
  have htopk := topk2_pair ((group.map (fun row => topk1 row.dropLast)).map Prod.fst)
    p q hpq (by omega) (by omega) hl
  show (topk_indices ((group.map (fun row => topk1 row.dropLast)).map Prod.fst) 2
      []).map (fun e =>
        (bol.getD ((group.map (fun row => topk1 row.dropLast)).getD e (0, 0)).2 "", e)) =
    _
  rw [htopk]
  rcases Nat.lt_or_ge p q with hlt | hge
  · rw [Nat.min_eq_left (le_of_lt hlt), Nat.max_eq_right (le_of_lt hlt),
      if_pos hlt]
    rw [List.map_cons, List.map_cons, List.map_nil]
    rw [hescore p hp, hescore q hq]
    rw [if_pos rfl, if_neg (fun h => hpq h.symm), if_pos rfl]
  · have hgt : q < p := by omega
    rw [Nat.min_eq_right (le_of_lt hgt), Nat.max_eq_left (le_of_lt hgt),
      if_neg (by omega)]
    rw [List.map_cons, List.map_cons, List.map_nil]
    rw [hescore p hp, hescore q hq]
    rw [if_pos rfl, if_neg (fun h => hpq h.symm), if_pos rfl]

/-- parse_node on the encoded rows of a well-formed node recovers exactly the
node's selected (op-name, predecessor) pairs. -/
theorem parse_node_WF_mem (n : ℕ) (bol : List String) (hb : bol.length = 8)
    (gene : List (List (String × ℕ))) (hw : WFgene n bol gene)
    (i : ℕ) (hi : i < n) (group : List (List ℤ))
    (hglen : group.length = 2 + i)
    (hrowsrc : ∀ e, e < 2 + i → group.getD e [] =
      match (gene.getD i []).find? (fun op => op.2 == e) with
      | some op => (List.replicate bol.length (0:ℤ)).set (bol.indexOf op.1) 1
      | none => (List.replicate bol.length (0:ℤ)).set 7 1) :
    ∀ pr : String × ℕ, pr ∈ parse_node bol 2 group ↔ pr ∈ gene.getD i [] := by
  obtain ⟨a, p, b, q, hnode, hpq, hp, hq, ⟨pa, hpa, hga⟩, ⟨pb, hpb, hgb⟩⟩ := hw.2 i hi
  obtain ⟨hcaa, hgca⟩ := indexOf_getD_spec bol pa a (by omega) hga
  obtain ⟨hcbb, hgcb⟩ := indexOf_getD_spec bol pb b (by omega) hgb
  have hca : bol.indexOf a < 7 := by omega
  have hcb : bol.indexOf b < 7 := by omega
  have hfind : ∀ e : ℕ, (gene.getD i []).find? (fun op => op.2 == e) =
      if e = p then some (a, p) else if e = q then some (b, q) else none := by
    intro e
    rw [hnode]
    by_cases hep : e = p
    · rw [if_pos hep, List.find?_cons_of_pos _ (by simp [hep])]
    · rw [if_neg hep, List.find?_cons_of_neg _ (by simp [Ne.symm hep])]
      by_cases heq : e = q
      · rw [if_pos heq, List.find?_cons_of_pos _ (by simp [heq])]
      · rw [if_neg heq, List.find?_cons_of_neg _ (by simp [Ne.symm heq])]
        rfl
  have hrow : ∀ e, e < 2 + i → group.getD e [] =
      if e = p then (List.replicate 8 (0:ℤ)).set (bol.indexOf a) 1
      else if e = q then (List.replicate 8 (0:ℤ)).set (bol.indexOf b) 1
      else (List.replicate 8 (0:ℤ)).set 7 1 := by
    intro e he
    rw [hrowsrc e he, hfind e, hb]
    by_cases hep : e = p
    · rw [if_pos hep, if_pos hep]
    · rw [if_neg hep, if_neg hep]
      by_cases heq : e = q
      · rw [if_pos heq, if_pos heq]
      · rw [if_neg heq, if_neg heq]
  have hparsed := parse_node_encoded bol group i p q (bol.indexOf a) (bol.indexOf b)
    hglen hca hcb hpq hp hq hrow
  intro pr
  rw [hparsed, hnode, hgca, hgcb]
  by_cases hlt : p < q
  · rw [if_pos hlt]
  · rw [if_neg hlt]
    simp only [List.mem_cons, List.not_mem_nil, or_false]
    exact or_comm

/-- C3 (amended): for a vocabulary of exactly 8 operations ending in 'none'
(so that the encoder's hardcoded default column 7 is the 'none' position),
discretize on encode(g) recovers, for each node, exactly the k = 2
(op-name, predecessor) pairs g selected, for both cell kinds. -/
theorem c3_roundtrip_8ops (n : ℕ) (bol : List String) (geno : GenotypeT)
    (hb : bol.length = 8) (hnone : bol.getD 7 "" = "none")
    (hwn : WFgene n bol geno.normal) (hwr : WFgene n bol geno.reduce)
    (i : ℕ) (hi : i < n) :
    (∀ pr : String × ℕ,
      pr ∈ (DartsCNN_genotype (num_edges_calc n) n bol
          (genotype_to_onehot_sample n bol geno)).normal.getD i [] ↔
        pr ∈ geno.normal.getD i []) ∧
    (∀ pr : String × ℕ,
      pr ∈ (DartsCNN_genotype (num_edges_calc n) n bol
          (genotype_to_onehot_sample n bol geno)).reduce.getD i [] ↔
        pr ∈ geno.reduce.getD i []) := by
  have hthlen := theta_len n bol geno
  constructor
  · have hng : (DartsCNN_genotype (num_edges_calc n) n bol
        (genotype_to_onehot_sample n bol geno)).normal =
        parse_from_numpy (darts_weight_unpack
          ((genotype_to_onehot_sample n bol geno).take (num_edges_calc n)) n 2)
          2 bol := rfl
    rw [hng, parse_from_numpy_getD _ 2 bol i (by rw [unpack_length]; exact hi)]
    apply parse_node_WF_mem n bol hb geno.normal hwn i hi
    · exact group_len_take _ n i hthlen hi
    · intro e he
      rw [group_entry_take _ n i e hi he]
      have h := genotype_onehot_row n bol geno hwn hwr 0 i e (by omega) hi he
      rw [show (0 : ℕ) * num_edges_calc n + (edge_offset i + e) =
        edge_offset i + e by omega] at h
      rw [show (if (0:ℕ) = 0 then geno.normal else geno.reduce) = geno.normal
        from if_pos rfl] at h
      exact h
  · have hrg : (DartsCNN_genotype (num_edges_calc n) n bol
        (genotype_to_onehot_sample n bol geno)).reduce =
        parse_from_numpy (darts_weight_unpack
          ((genotype_to_onehot_sample n bol geno).drop (num_edges_calc n)) n 2)
          2 bol := rfl
    rw [hrg, parse_from_numpy_getD _ 2 bol i (by rw [unpack_length]; exact hi)]
    apply parse_node_WF_mem n bol hb geno.reduce hwr i hi
    · exact group_len_drop _ n i hthlen hi
    · intro e he
      rw [group_entry_drop _ n i e hi he]
      have h := genotype_onehot_row n bol geno hwn hwr 1 i e (by omega) hi he
      rw [show (1 : ℕ) * num_edges_calc n + (edge_offset i + e) =
        num_edges_calc n + (edge_offset i + e) by omega] at h
      rw [show (if (1:ℕ) = 0 then geno.normal else geno.reduce) = geno.reduce
        from if_neg (by omega)] at h
      exact h

/-- A well-formed 4-node genotype of the shape discretization produces, over
the default 8-operation vocabulary. -/
def wfGeno4 : GenotypeT :=
  { normal := [[("skip_connect", 1), ("max_pool_3x3", 0)],
               [("sep_conv_3x3", 2), ("dil_conv_3x3", 0)],
               [("sep_conv_5x5", 3), ("avg_pool_3x3", 1)],
               [("dil_conv_5x5", 4), ("skip_connect", 3)]]
    normal_concat := [2, 3, 4, 5]
    reduce := [[("max_pool_3x3", 0), ("avg_pool_3x3", 1)],
               [("skip_connect", 1), ("sep_conv_3x3", 2)],
               [("dil_conv_3x3", 0), ("sep_conv_5x5", 3)],
               [("dil_conv_5x5", 4), ("max_pool_3x3", 2)]]
    reduce_concat := [2, 3, 4, 5] }

theorem wfGeno4_normal_WF : WFgene 4 DARTS_DEFAULT_OPS wfGeno4.normal := by
  refine ⟨rfl, ?_⟩
  intro i hi
  interval_cases i
  · exact ⟨"skip_connect", 1, "max_pool_3x3", 0, rfl, by decide, by decide, by decide,
      ⟨2, by decide, by decide⟩, ⟨0, by decide, by decide⟩⟩
  · exact ⟨"sep_conv_3x3", 2, "dil_conv_3x3", 0, rfl, by decide, by decide, by decide,
      ⟨3, by decide, by decide⟩, ⟨5, by decide, by decide⟩⟩
  · exact ⟨"sep_conv_5x5", 3, "avg_pool_3x3", 1, rfl, by decide, by decide, by decide,
      ⟨4, by decide, by decide⟩, ⟨1, by decide, by decide⟩⟩
  · exact ⟨"dil_conv_5x5", 4, "skip_connect", 3, rfl, by decide, by decide, by decide,
      ⟨6, by decide, by decide⟩, ⟨2, by decide, by decide⟩⟩

theorem wfGeno4_reduce_WF : WFgene 4 DARTS_DEFAULT_OPS wfGeno4.reduce := by
  refine ⟨rfl, ?_⟩
  intro i hi
  interval_cases i
  · exact ⟨"max_pool_3x3", 0, "avg_pool_3x3", 1, rfl, by decide, by decide, by decide,
      ⟨0, by decide, by decide⟩, ⟨1, by decide, by decide⟩⟩
  · exact ⟨"skip_connect", 1, "sep_conv_3x3", 2, rfl, by decide, by decide, by decide,
      ⟨2, by decide, by decide⟩, ⟨3, by decide, by decide⟩⟩
  · exact ⟨"dil_conv_3x3", 0, "sep_conv_5x5", 3, rfl, by decide, by decide, by decide,
      ⟨5, by decide, by decide⟩, ⟨4, by decide, by decide⟩⟩
  · exact ⟨"dil_conv_5x5", 4, "max_pool_3x3", 2, rfl, by decide, by decide, by decide,
      ⟨6, by decide, by decide⟩, ⟨0, by decide, by decide⟩⟩

/-- C3 witness: for a concrete well-formed 4-node genotype over the default
8-operation vocabulary, node 2 of both cell kinds is recovered exactly
(here checked at the pair selected with predecessor 3 of the normal cell and
predecessor 0 of the reduce cell, plus a direct evaluation of the whole
recovered node). -/
theorem c3_roundtrip_8ops_witness :
    DARTS_DEFAULT_OPS.length = 8 ∧ DARTS_DEFAULT_OPS.getD 7 "" = "none" ∧
    (("sep_conv_5x5", 3) ∈ (DartsCNN_genotype (num_edges_calc 4) 4 DARTS_DEFAULT_OPS
        (genotype_to_onehot_sample 4 DARTS_DEFAULT_OPS wfGeno4)).normal.getD 2 [] ↔
      ("sep_conv_5x5", 3) ∈ wfGeno4.normal.getD 2 []) ∧
    (("dil_conv_3x3", 0) ∈ (DartsCNN_genotype (num_edges_calc 4) 4 DARTS_DEFAULT_OPS
        (genotype_to_onehot_sample 4 DARTS_DEFAULT_OPS wfGeno4)).reduce.getD 2 [] ↔
      ("dil_conv_3x3", 0) ∈ wfGeno4.reduce.getD 2 []) ∧
    (DartsCNN_genotype (num_edges_calc 4) 4 DARTS_DEFAULT_OPS
        (genotype_to_onehot_sample 4 DARTS_DEFAULT_OPS wfGeno4)).normal.getD 2 [] =
      [("avg_pool_3x3", 1), ("sep_conv_5x5", 3)] :=
  ⟨by decide, by decide,
   (c3_roundtrip_8ops 4 DARTS_DEFAULT_OPS wfGeno4 (by decide) (by decide)
      wfGeno4_normal_WF wfGeno4_reduce_WF 2 (by decide)).1 ("sep_conv_5x5", 3),
   (c3_roundtrip_8ops 4 DARTS_DEFAULT_OPS wfGeno4 (by decide) (by decide)
      wfGeno4_normal_WF wfGeno4_reduce_WF 2 (by decide)).2 ("dil_conv_3x3", 0),
   by decide⟩

end XNAS
